import Mathlib

/-!
# Verification of the firestore-data-converter module

A shallow embedding of `src/firestore-data-converter.js` and `src/util.js`.

JavaScript values are modelled by the inductive type `JSVal`.  Numbers are
modelled as integers (no claim depends on floating point behaviour); objects
carry the list of constructor names of their prototype chain (head = the
value's own constructor name) together with their own enumerable properties as
an ordered association list, which is how JavaScript enumerates them.  The
store-native scalar types (`DocumentReference`, `GeoPoint`, `Timestamp`,
`FieldValue`) and `Date` are opaque leaf values carrying their identifying
data.

The converter's recursion has no explicit bound in the source; following §5 of
the design (recursion depth is bounded only by the host's call stack), the
embedding threads an explicit `fuel : Nat` argument modelling the remaining
call-stack depth, and running out of fuel produces the host's stack-overflow
failure.  All theorems assume enough fuel for the value at hand
(`fuelNeed v ≤ fuel`).

Exceptions are modelled by `Except String`; an `Except.error` is a thrown
JavaScript error carrying the error message, and monadic short-circuiting
mirrors exception propagation.
-/

inductive JSVal where
  | vNull
  | vUndefined
  | vNum (n : Int)
  | vBool (b : Bool)
  | vStr (s : String)
  | vBigInt (n : Int)
  | vSymbol (desc : String)
  /-- A function value: its `name` property and its source text (`toString()`). -/
  | vFunc (name : String) (src : String)
  | vArr (items : List JSVal)
  /-- A general object: `chain` is the list of constructor names along its
  prototype chain (head = its own constructor name; a plain object literal has
  chain `["Object"]`, `new Point()` has `["Point", "Object"]`, an instance of
  `class ServerTimestampTransform extends FieldValue` has
  `["ServerTimestampTransform", "FieldValue", "Object"]`); `fields` are its own
  enumerable string-keyed properties in enumeration order. -/
  | vObj (chain : List String) (fields : List (String × JSVal))
  | vDate (ms : Int)
  /-- A Firestore `Timestamp`; `toDate()` yields `vDate ms`. -/
  | vTimestamp (ms : Int)
  | vDocRef (path : String)
  | vGeoPoint (lat lon : Int)
  | vFieldValue (tag : String)

open JSVal

/-- JavaScript `typeof`.  Note `typeof null === "object"`. -/
def jsTypeof : JSVal → String
  | vNull => "object"
  | vUndefined => "undefined"
  | vNum _ => "number"
  | vBool _ => "boolean"
  | vStr _ => "string"
  | vBigInt _ => "bigint"
  | vSymbol _ => "symbol"
  | vFunc _ _ => "function"
  | vArr _ => "object"
  | vObj _ _ => "object"
  | vDate _ => "object"
  | vTimestamp _ => "object"
  | vDocRef _ => "object"
  | vGeoPoint _ _ => "object"
  | vFieldValue _ => "object"

/-- `value?.constructor?.name`: `none` for `null`/`undefined` (optional
chaining yields `undefined`), the boxed wrapper class name for primitives, the
head of the prototype chain for objects. -/
def constructorName : JSVal → Option String
  | vNull => none
  | vUndefined => none
  | vNum _ => some "Number"
  | vBool _ => some "Boolean"
  | vStr _ => some "String"
  | vBigInt _ => some "BigInt"
  | vSymbol _ => some "Symbol"
  | vFunc _ _ => some "Function"
  | vArr _ => some "Array"
  | vObj chain _ => chain.head?
  | vDate _ => some "Date"
  | vTimestamp _ => some "Timestamp"
  | vDocRef _ => some "DocumentReference"
  | vGeoPoint _ _ => some "GeoPoint"
  | vFieldValue _ => some "FieldValue"

/-- The constructor names along a value's prototype chain, as walked by
`Object.getPrototypeOf` (for a primitive, the walk starts at its boxed
wrapper's prototype). -/
def protoChainNames : JSVal → List String
  | vNull => []
  | vUndefined => []
  | vNum _ => ["Number", "Object"]
  | vBool _ => ["Boolean", "Object"]
  | vStr _ => ["String", "Object"]
  | vBigInt _ => ["BigInt", "Object"]
  | vSymbol _ => ["Symbol", "Object"]
  | vFunc _ _ => ["Function", "Object"]
  | vArr _ => ["Array", "Object"]
  | vObj chain _ => chain
  | vDate _ => ["Date", "Object"]
  | vTimestamp _ => ["Timestamp", "Object"]
  | vDocRef _ => ["DocumentReference", "Object"]
  | vGeoPoint _ _ => ["GeoPoint", "Object"]
  | vFieldValue _ => ["FieldValue", "Object"]

/-- `src/util.js` `isInstanceOf(object, type)`: `false` for `null`/`undefined`
(`object == null`), otherwise walk the prototype chain comparing each
prototype's constructor name with `type`. -/
def isInstanceOf (object : JSVal) (type : String) : Bool :=
  match object with
  | vNull => false
  | vUndefined => false
  | _ => (protoChainNames object).contains type

/-- `value instanceof Date` (prototype-chain based, so subclasses of `Date`
also qualify). -/
def instanceofDate (value : JSVal) : Bool :=
  match value with
  | vNull => false
  | vUndefined => false
  | _ => (protoChainNames value).contains "Date"

/-- `customValue instanceof ContinueConversion`: true exactly for instances of
the `ContinueConversion` class (or a subclass), i.e. objects whose prototype
chain contains `ContinueConversion`. -/
def isContinueConversion : JSVal → Bool
  | vObj chain _ => chain.contains "ContinueConversion"
  | _ => false

/-- A fresh `new ContinueConversion()` instance. -/
def continueConversion : JSVal := vObj ["ContinueConversion", "Object"] []

/-- JavaScript strict equality of a value against a string literal
(`value === "s"`). -/
def isStrEq (value : JSVal) (s : String) : Bool :=
  match value with
  | vStr t => t = s
  | _ => false

/-- The decimal value of a digit character, `none` for a non-digit. -/
def digitVal? (c : Char) : Option Nat :=
  if 48 ≤ c.toNat ∧ c.toNat ≤ 57 then some (c.toNat - 48) else none

/-- Accumulating decimal parse of a digit list. -/
def parseDigitsAux : List Char → Nat → Option Nat
  | [], acc => some acc
  | c :: rest, acc =>
    match digitVal? c with
    | some d => parseDigitsAux rest (acc * 10 + d)
    | none => none

/-- The canonical array-index reading of a property key: `some n` when the key
is the canonical decimal representation of `n` (digits only, no leading zero
except for `"0"` itself). -/
def parseArrayIndex (key : String) : Option Nat :=
  match key.data with
  | [] => none
  | c :: rest =>
    if c = '0' ∧ rest ≠ [] then none
    else parseDigitsAux (c :: rest) 0

/-- Property read `value?.[key]` (`undefined` when absent or when the receiver
is `null`/`undefined`).  Arrays expose their elements under canonical numeric
keys and their length under `"length"`; functions expose `"name"`; strings
expose `"length"`. -/
def getProp (value : JSVal) (key : String) : JSVal :=
  match value with
  | vObj _ fields => ((fields.find? (fun p => p.1 = key)).map Prod.snd).getD vUndefined
  | vArr items =>
    if key = "length" then vNum items.length
    else
      match parseArrayIndex key with
      | some i => (items.get? i).getD vUndefined
      | none => vUndefined
  | vFunc name _ => if key = "name" then vStr name else vUndefined
  | vStr s => if key = "length" then vNum s.length else vUndefined
  | _ => vUndefined

/-- JavaScript property assignment `obj[key] = v` on a plain object modelled
as an ordered association list: an existing key keeps its position and gets the
new value, a fresh key is appended. -/
def objInsert (fields : List (String × JSVal)) (key : String) (v : JSVal) :
    List (String × JSVal) :=
  match fields with
  | [] => [(key, v)]
  | (k, w) :: rest =>
    if k = key then (k, v) :: rest else (k, w) :: objInsert rest key v

/-- `Object.fromEntries`: repeated keys keep their first position with the
last value, exactly as successive property assignments do. -/
def objFromList (entries : List (String × JSVal)) : List (String × JSVal) :=
  entries.foldl (fun acc p => objInsert acc p.1 p.2) []

/-- `Object.getOwnPropertyNames`.  For an array this is the index keys followed
by the non-enumerable `"length"` property; for a general object its own
property keys.  (Leaf values relevant to the converter have no own
properties.) -/
def getOwnPropertyNames : JSVal → List String
  | vArr items => (List.range items.length).map (fun i => toString i) ++ ["length"]
  | vObj _ fields => fields.map Prod.fst
  | _ => []

/-- `Object.entries` (own enumerable properties).  Throws a `TypeError` on
`null`/`undefined`; an array's index properties are enumerable; a function's
`name`/`length` properties are own but not enumerable, so a function has no
entries. -/
def jsEntries : JSVal → Except String (List (String × JSVal))
  | vNull => .error "TypeError: Cannot convert undefined or null to object"
  | vUndefined => .error "TypeError: Cannot convert undefined or null to object"
  | vObj _ fields => .ok fields
  | vArr items => .ok (items.enum.map (fun p => (toString p.1, p.2)))
  | _ => .ok []

/-- The message of the host's call-stack-exhaustion failure (design §5: deep
recursion is an unhandled stack failure). -/
def stackOverflowMsg : String := "RangeError: Maximum call stack size exceeded"

/-- `array.map(f)` where `f` may throw: the thrown error aborts the whole
map. -/
def mapExcept (f : α → Except String β) : List α → Except String (List β)
  | [] => .ok []
  | a :: rest =>
    match f a with
    | .error e => .error e
    | .ok b =>
      match mapExcept f rest with
      | .error e => .error e
      | .ok bs => .ok (b :: bs)

/-- The loop `for (const [key, val] of entries) result[key] = conv(val)`
starting from the accumulated object `acc`. -/
def convertEntriesLoop (conv : JSVal → Except String JSVal) :
    List (String × JSVal) → List (String × JSVal) →
    Except String (List (String × JSVal))
  | acc, [] => .ok acc
  | acc, (key, val) :: rest =>
    match conv val with
    | .error e => .error e
    | .ok w => convertEntriesLoop conv (objInsert acc key w) rest

/-- Array slot assignment `result[i] = v`, padding with `undefined` (holes read
back as `undefined`) when `i` is beyond the current length. -/
def listSet (l : List JSVal) (i : Nat) (v : JSVal) : List JSVal :=
  if i < l.length then l.set i v
  else l ++ List.replicate (i - l.length) vUndefined ++ [v]

/-- Assignment to an array's `length` property: truncates or extends (new
slots are holes, reading back as `undefined`). -/
def setLength (l : List JSVal) (n : Nat) : List JSVal :=
  if n ≤ l.length then l.take n
  else l ++ List.replicate (n - l.length) vUndefined

/-- `result[key] = v` where `result` is an array: a canonical numeric key
writes the corresponding slot, `"length"` sets the array length (a
non-numeric, non-nonnegative length throws a `RangeError`; the encoder only
ever stores the true numeric length there).  Any other key would create a
non-index property on the array, which an array value in this model cannot
carry; the encoder never produces such keys, and the model drops them. -/
def arrAssign (l : List JSVal) (key : String) (v : JSVal) :
    Except String (List JSVal) :=
  if key = "length" then
    match v with
    | vNum n => if 0 ≤ n then .ok (setLength l n.toNat)
                else .error "RangeError: Invalid array length"
    | _ => .error "RangeError: Invalid array length"
  else
    match parseArrayIndex key with
    | some i => .ok (listSet l i v)
    | none => .ok l

/-- The loop of the converted-array decoder:
`for (const [key, val] of entries) { if (key === ctorKey) continue;
result[key] = conv(val) }`. -/
def decodeArrayLoop (conv : JSVal → Except String JSVal) (ctorKey : String) :
    List JSVal → List (String × JSVal) → Except String (List JSVal)
  | acc, [] => .ok acc
  | acc, (key, val) :: rest =>
    if key = ctorKey then decodeArrayLoop conv ctorKey acc rest
    else
      match conv val with
      | .error e => .error e
      | .ok w =>
        match arrAssign acc key w with
        | .error e => .error e
        | .ok acc₂ => decodeArrayLoop conv ctorKey acc₂ rest

/-- A minimal rendering of a value for the template literal in the fallback
error message (only functions can actually reach that message; a template
literal renders a function as its source text). -/
def jsToDisplayString : JSVal → String
  | vFunc _ src => src
  | vStr s => s
  | _ => "[object Object]"

/-- Whitespace test for the source-text trimming below. -/
def isWsp (c : Char) : Bool := c = ' ' ∨ c = '\t' ∨ c = '\n' ∨ c = '\r'

/-- Trim leading and trailing whitespace from a character list. -/
def trimChars (l : List Char) : List Char :=
  ((l.dropWhile isWsp).reverse.dropWhile isWsp).reverse

/-- The function value produced by
`new Function("return " + src)()` when `src` is the stored source text of a
function: a function whose source is `src` and whose `name` is the one
declared in `src` (empty for an anonymous/arrow source).  Dynamic code
evaluation is modelled only to this extent; no claim exercises this branch. -/
def functionOfSource (stored : JSVal) : JSVal :=
  match stored with
  | vStr src =>
    let t := trimChars src.data
    let name :=
      if t.take 8 = "function".data then
        String.mk (trimChars ((t.drop 8).takeWhile (fun c => c ≠ '(')))
      else ""
    vFunc name src
  | _ => vUndefined

/-- The `FirestoreDataConverterOptions` record after the constructor has
applied its `??=` defaults.  The two converter tables are association lists
from type tag / constructor name to the registered converter function. -/
structure FirestoreDataConverterOptions where
  toFirestoreConverters : List (String × (JSVal → JSVal)) := []
  fromFirestoreConverters : List (String × (JSVal → JSVal)) := []
  undefinedValues : String := "omit"
  multidimensionalArrays : String := "convert"
  functions : String := "omit"
  classInstances : String := "convert"
  fallback : String := "return"
  constructorKey : String := "_constructor"

/-- `new FirestoreDataConverter({})`: every option takes its default. -/
def defaultOptions : FirestoreDataConverterOptions := {}

/-- `key in table` / `table[key]` on the converter tables. -/
def tableLookup (table : List (String × (JSVal → JSVal))) (key : String) :
    Option (JSVal → JSVal) :=
  (table.find? (fun p => p.1 = key)).map Prod.snd

/-- The custom-converter preamble shared verbatim by both directions: first the
converter registered under `typeof value`, then (if that is absent or returns a
`ContinueConversion` instance) the one registered under
`value?.constructor?.name` (only when that name is truthy).  `some w` means a
custom converter produced the final result `w`; `none` means fall through to
the built-in cases. -/
def applyCustomConverters (table : List (String × (JSVal → JSVal)))
    (value : JSVal) : Option JSVal :=
  let byTag : Option JSVal :=
    match tableLookup table (jsTypeof value) with
    | some f =>
      let customValue := f value
      if isContinueConversion customValue then none else some customValue
    | none => none
  match byTag with
  | some w => some w
  | none =>
    match constructorName value with
    | some name =>
      if name ≠ "" then
        match tableLookup table name with
        | some f =>
          let customValue := f value
          if isContinueConversion customValue then none else some customValue
        | none => none
      else none
    | none => none

/-- The list of constructor names in the `// Case: Firestore types` switch. -/
def firestoreTypeNames : List String :=
  ["DocumentReference", "GeoPoint", "Timestamp", "FieldValue"]

/-- The fallback switch at the end of `convertValueToFirestore`
(`// Case: unknown`). -/
def fallbackCase (opts : FirestoreDataConverterOptions) (value : JSVal) :
    Except String JSVal :=
  match opts.fallback with
  | "return" => .ok value
  | "omit" => .ok vUndefined
  | "error" => .error ("Can't convert value to Firestore: " ++ jsToDisplayString value)
  | m => .error ("Invalid value for fallback: " ++ m)

mutual

/-- `FirestoreDataConverter.convertValueToFirestore(value, insideArray)`.
The cases appear in source order; each `JSVal` constructor is routed to the
first source case that matches it.  Note two faithful quirks of the source:
the plain-object loop assigns `result[key] = this.convertValueToFirestore(val)`
even when that is `undefined` (the key is kept, mapped to `undefined`), and
the `functions` switch has no `default` case, so an unrecognized `functions`
mode falls through past the remaining (non-matching) cases to the fallback
switch. -/
def convertValueToFirestore (opts : FirestoreDataConverterOptions) :
    Nat → JSVal → Bool → Except String JSVal
  | 0, _, _ => .error stackOverflowMsg
  | fuel + 1, value, insideArray =>
    -- Case: custom converter (typeof tag, then constructor name)
    match applyCustomConverters opts.toFirestoreConverters value with
    | some customValue => .ok customValue
    | none =>
      match value with
      -- Case: null
      | vNull => .ok vNull
      -- Case: undefined
      | vUndefined =>
        match opts.undefinedValues with
        | "omit" => .ok vUndefined
        | "null" => .ok vNull
        | m => .error ("Invalid value for undefinedValues: " ++ m)
      -- Cases: number, boolean, string, bigint, symbol
      | vNum n => .ok (vNum n)
      | vBool b => .ok (vBool b)
      | vStr s => .ok (vStr s)
      | vBigInt n => .ok (vBigInt n)
      | vSymbol d => .ok (vStr ("Symbol(" ++ d ++ ")"))
      -- Case: Firestore types (matched by constructor name)
      | vDocRef p => .ok (vDocRef p)
      | vGeoPoint a b => .ok (vGeoPoint a b)
      | vTimestamp t => .ok (vTimestamp t)
      | vFieldValue t => .ok (vFieldValue t)
      -- Case: Date
      | vDate t => .ok (vDate t)
      -- Case: Function (no default case in the switch: an unrecognized
      -- `functions` mode falls through; a function matches none of the
      -- remaining cases, so it reaches the fallback switch)
      | vFunc name src =>
        match opts.functions with
        | "convert" =>
          .ok (vObj ["Object"]
            (objFromList [(opts.constructorKey, vStr "Function"),
                          ("name", vStr name), ("string", vStr src)]))
        | "omit" => .ok vUndefined
        | "error" => .error "Firestore can't handle functions"
        | _ => fallbackCase opts (vFunc name src)
      -- Case: Array
      | vArr items =>
        if insideArray then
          match opts.multidimensionalArrays with
          | "convert" => convertToTypedPlainObject opts fuel (vArr items) true
          | "omit" => .ok vUndefined
          | "error" => .error "Firestore can't handle multi-dimensional arrays"
          | m => .error ("Invalid value for multidimensionalArrays: " ++ m)
        else
          match mapExcept (fun item => convertValueToFirestore opts fuel item true) items with
          | .error e => .error e
          | .ok res => .ok (vArr res)
      | vObj chain fields =>
        -- Case: Firestore types (constructor-name switch: any object whose
        -- own constructor name is on the list)
        if (chain.head?.getD "") ∈ firestoreTypeNames then .ok (vObj chain fields)
        -- Case: Date (`instanceof` walks the prototype chain)
        else if chain.contains "Date" then .ok (vObj chain fields)
        -- Case: Plain object (`value?.constructor === Object`)
        else if chain.head? = some "Object" then
          match convertEntriesLoop
              (fun val => convertValueToFirestore opts fuel val false) [] fields with
          | .error e => .error e
          | .ok result => .ok (vObj ["Object"] result)
        -- Case: Class instance (`typeof value === "object"`)
        else convertToTypedPlainObject opts fuel (vObj chain fields) true

/-- `FirestoreDataConverter.convertToTypedPlainObject(object, convertValues)`:
map every own property name (`Object.getOwnPropertyNames`) to its (optionally
converted) value, `Object.fromEntries` the result, then set the reserved
`constructorKey` property to the object's constructor name. -/
def convertToTypedPlainObject (opts : FirestoreDataConverterOptions) :
    Nat → JSVal → Bool → Except String JSVal
  | 0, _, _ => .error stackOverflowMsg
  | fuel + 1, object, convertValues =>
    match mapExcept (fun key =>
        match (if convertValues then
                 convertValueToFirestore opts fuel (getProp object key) false
               else .ok (getProp object key)) with
        | .error e => .error e
        | .ok w => .ok (key, w)) (getOwnPropertyNames object) with
    | .error e => .error e
    | .ok entries =>
      .ok (vObj ["Object"]
        (objInsert (objFromList entries) opts.constructorKey
          (vStr ((constructorName object).getD "undefined"))))

end

/-- `FirestoreDataConverter.convertValueFromFirestore(value)` in source case
order: custom converters, `Timestamp` (by constructor name, then calling
`toDate()` — an object merely named `Timestamp` without that method throws),
arrays (recurse elementwise), converted arrays (only when
`multidimensionalArrays === "convert"` and the reserved key holds `"Array"`),
converted functions (only when `functions === "convert"`), any other
`typeof === "object"` value (recurse field-by-field; `null` reaches this case
and `Object.entries(null)` throws a `TypeError`), and finally primitives
returned as-is. -/
def convertValueFromFirestore (opts : FirestoreDataConverterOptions) :
    Nat → JSVal → Except String JSVal
  | 0, _ => .error stackOverflowMsg
  | fuel + 1, value =>
    match applyCustomConverters opts.fromFirestoreConverters value with
    | some customValue => .ok customValue
    | none =>
      if constructorName value = some "Timestamp" then
        match value with
        | vTimestamp t => .ok (vDate t)
        | _ => .error "TypeError: value.toDate is not a function"
      else
        match value with
        | vArr items =>
          match mapExcept (fun item => convertValueFromFirestore opts fuel item) items with
          | .error e => .error e
          | .ok res => .ok (vArr res)
        | _ =>
          if opts.multidimensionalArrays = "convert"
              && isStrEq (getProp value opts.constructorKey) "Array" then
            match jsEntries value with
            | .error e => .error e
            | .ok entries =>
              match decodeArrayLoop (fun val => convertValueFromFirestore opts fuel val)
                  opts.constructorKey [] entries with
              | .error e => .error e
              | .ok result => .ok (vArr result)
          else if opts.functions = "convert"
              && isStrEq (getProp value opts.constructorKey) "Function" then
            .ok (functionOfSource (getProp value "string"))
          else if jsTypeof value = "object" then
            match jsEntries value with
            | .error e => .error e
            | .ok entries =>
              match convertEntriesLoop
                  (fun val => convertValueFromFirestore opts fuel val) [] entries with
              | .error e => .error e
              | .ok result => .ok (vObj ["Object"] result)
          else .ok value

/-- `FirestoreDataConverter.toFirestore(modelObject)`. -/
def toFirestore (opts : FirestoreDataConverterOptions) (fuel : Nat)
    (modelObject : JSVal) : Except String JSVal :=
  convertValueToFirestore opts fuel modelObject false

/-- `FirestoreDataConverter.fromFirestore(snapshot, options)`, with the
snapshot modelled by the raw value its `data()` accessor returns. -/
def fromFirestore (opts : FirestoreDataConverterOptions) (fuel : Nat)
    (snapshotData : JSVal) : Except String JSVal :=
  convertValueFromFirestore opts fuel snapshotData

mutual

/-- The call-stack depth sufficient to convert a value in either direction:
containers cost two frames (one for the dispatch call, one for the possible
`convertToTypedPlainObject` hop), leaves one. -/
def fuelNeed : JSVal → Nat
  | vArr items => 2 + fuelNeedL items
  | vObj _ fields => 2 + fuelNeedF fields
  | _ => 1

def fuelNeedL : List JSVal → Nat
  | [] => 1
  | v :: rest => max (fuelNeed v) (fuelNeedL rest)

def fuelNeedF : List (String × JSVal) → Nat
  | [] => 1
  | (_, v) :: rest => max (fuelNeed v) (fuelNeedF rest)

end

/-- Key lookup in an object's field list (the value stored under `key`). -/
def lookupField (fields : List (String × JSVal)) (key : String) : Option JSVal :=
  (fields.find? (fun p => p.1 = key)).map Prod.snd

/-- Whether a key occurs in a field list. -/
def hasKey : List (String × JSVal) → String → Bool
  | [], _ => false
  | (k, _) :: rest, key => k = key || hasKey rest key

/-- Whether a field list has pairwise distinct keys (every JavaScript object
does; the association-list model must say so explicitly). -/
def keysDistinct : List (String × JSVal) → Bool
  | [] => true
  | (k, _) :: rest => !hasKey rest k && keysDistinct rest

/-- Whether a value is an array. -/
def isArrayV : JSVal → Bool
  | vArr _ => true
  | _ => false

mutual

/-- The "plain data" subset of claim C1: primitive scalars (number, boolean,
string, bigint), single-level arrays (no array directly inside an array), and
plain objects (prototype chain `["Object"]`, distinct keys), recursively. -/
def isPlainData : JSVal → Bool
  | vNum _ => true
  | vBool _ => true
  | vStr _ => true
  | vBigInt _ => true
  | vArr items => isPlainDataElems items
  | vObj chain fields =>
    decide (chain = ["Object"]) && keysDistinct fields && isPlainDataFields fields
  | _ => false

/-- Elements of a single-level array: plain data that is itself not an
array. -/
def isPlainDataElems : List JSVal → Bool
  | [] => true
  | v :: rest => !isArrayV v && isPlainData v && isPlainDataElems rest

def isPlainDataFields : List (String × JSVal) → Bool
  | [] => true
  | (_, v) :: rest => isPlainData v && isPlainDataFields rest

end

mutual

/-- No object anywhere in the value maps the default reserved key
`"_constructor"` to the string `"Array"` (the collision that makes the inbound
converter decode a stored plain object as an array). -/
def noArrayMark : JSVal → Bool
  | vArr items => noArrayMarkL items
  | vObj _ fields =>
    !isStrEq ((lookupField fields "_constructor").getD vUndefined) "Array"
      && noArrayMarkF fields
  | _ => true

def noArrayMarkL : List JSVal → Bool
  | [] => true
  | v :: rest => noArrayMark v && noArrayMarkL rest

def noArrayMarkF : List (String × JSVal) → Bool
  | [] => true
  | (_, v) :: rest => noArrayMark v && noArrayMarkF rest

end

mutual

/-- Claim C8 as written: the value contains, at any depth (through array
elements and object fields, without regard to how the converter traverses),
an array directly inside an array. -/
def containsNestedArrayAnywhere : JSVal → Bool
  | vArr items => items.any isArrayV || containsNestedArrayAnywhereL items
  | vObj _ fields => containsNestedArrayAnywhereF fields
  | _ => false

def containsNestedArrayAnywhereL : List JSVal → Bool
  | [] => false
  | v :: rest => containsNestedArrayAnywhere v || containsNestedArrayAnywhereL rest

def containsNestedArrayAnywhereF : List (String × JSVal) → Bool
  | [] => false
  | (_, v) :: rest => containsNestedArrayAnywhere v || containsNestedArrayAnywhereF rest

end

mutual

/-- Whether outbound conversion, called on `value` with the given
`insideArray` flag, reaches an array in `insideArray` position: the traversal
recurses through array elements, plain-object fields and the own properties of
class instances, but not through values passed through unchanged (store-native
constructor names, `Date` instances) nor through functions. -/
def reachesNestedArray : JSVal → Bool → Bool
  | vArr _, true => true
  | vArr items, false => reachesNestedArrayL items
  | vObj chain fields, _ =>
    if (chain.head?.getD "") ∈ firestoreTypeNames then false
    else if chain.contains "Date" then false
    else reachesNestedArrayF fields
  | _, _ => false

/-- Array elements are converted with `insideArray = true`. -/
def reachesNestedArrayL : List JSVal → Bool
  | [] => false
  | v :: rest => reachesNestedArray v true || reachesNestedArrayL rest

/-- Object fields and class-instance properties are converted with
`insideArray = false`. -/
def reachesNestedArrayF : List (String × JSVal) → Bool
  | [] => false
  | (_, v) :: rest => reachesNestedArray v false || reachesNestedArrayF rest

end


mutual

/-- Every object node in the value has pairwise distinct field keys — true of
every value graph built from real JavaScript objects, and made explicit here
because the association-list model could otherwise repeat keys. -/
def wfKeys : JSVal → Bool
  | vArr items => wfKeysL items
  | vObj _ fields => keysDistinct fields && wfKeysF fields
  | _ => true

def wfKeysL : List JSVal → Bool
  | [] => true
  | v :: rest => wfKeys v && wfKeysL rest

def wfKeysF : List (String × JSVal) → Bool
  | [] => true
  | (_, v) :: rest => wfKeys v && wfKeysF rest

end

/-- The converter configured with `multidimensionalArrays = "error"` and all
other options at their defaults (claim C8). -/
def errorModeOptions : FirestoreDataConverterOptions :=
  { defaultOptions with multidimensionalArrays := "error" }

/-- The converter configured with `multidimensionalArrays = "omit"` and all
other options at their defaults (claim C10). -/
def omitModeOptions : FirestoreDataConverterOptions :=
  { defaultOptions with multidimensionalArrays := "omit" }

-- Sanity checks that the embedding computes.
example : convertValueToFirestore defaultOptions 5 (vNum 3) false = .ok (vNum 3) := rfl
example : convertValueFromFirestore defaultOptions 5 (vStr "a") = .ok (vStr "a") := rfl
example :
    convertValueToFirestore defaultOptions 8
      (vArr [vArr [vNum 1, vNum 2]]) false =
    .ok (vArr [vObj ["Object"]
      [("0", vNum 1), ("1", vNum 2), ("length", vNum 2),
       ("_constructor", vStr "Array")]]) := rfl

/-! ## General lemmas about the embedding -/

/-- With an empty converter table the custom-converter preamble always falls
through. -/
theorem applyCustomConverters_nil (value : JSVal) :
    applyCustomConverters [] value = none := by
  unfold applyCustomConverters tableLookup
  cases h : constructorName value <;> simp

/-- The custom-converter preamble falls through when neither the type tag nor
the constructor name has a registered converter. -/
theorem applyCustomConverters_none (table : List (String × (JSVal → JSVal))) (value : JSVal)
    (h1 : tableLookup table (jsTypeof value) = none)
    (h2 : tableLookup table ((constructorName value).getD "") = none) :
    applyCustomConverters table value = none := by
  unfold applyCustomConverters
  rw [h1]
  cases h : constructorName value <;> simp_all

/-- Every value needs at least one stack frame. -/
theorem fuelNeed_pos (v : JSVal) : 1 ≤ fuelNeed v := by
  cases v <;> simp [fuelNeed]
  all_goals omega

/-- An array element's fuel requirement is bounded by the list's. -/
theorem fuelNeedL_le {x : JSVal} : ∀ {items : List JSVal}, x ∈ items →
    fuelNeed x ≤ fuelNeedL items := by
  intro items
  induction items with
  | nil => intro h; cases h
  | cons a t ih =>
    intro h
    rcases List.mem_cons.mp h with rfl | hm
    · rw [fuelNeedL]; exact le_max_left _ _
    · exact le_trans (ih hm) (by rw [fuelNeedL]; exact le_max_right _ _)

/-- A field value's fuel requirement is bounded by the field list's. -/
theorem fuelNeedF_le {p : String × JSVal} : ∀ {fields : List (String × JSVal)}, p ∈ fields →
    fuelNeed p.2 ≤ fuelNeedF fields := by
  intro fields
  induction fields with
  | nil => intro h; cases h
  | cons a t ih =>
    intro h
    obtain ⟨k, v⟩ := a
    rcases List.mem_cons.mp h with rfl | hm
    · rw [fuelNeedF]; exact le_max_left _ _
    · exact le_trans (ih hm) (by rw [fuelNeedF]; exact le_max_right _ _)

/-- Pointwise-equal functions map equally. -/
theorem mapExcept_congr {α β : Type} {f g : α → Except String β} :
    ∀ {l : List α}, (∀ x ∈ l, f x = g x) → mapExcept f l = mapExcept g l := by
  intro l
  induction l with
  | nil => intro _; rfl
  | cons a t ih =>
    intro h
    rw [mapExcept, mapExcept, h a (List.mem_cons_self a t),
      ih (fun x hx => h x (List.mem_cons_of_mem a hx))]

/-- A map whose function is the identity on every element returns the list. -/
theorem mapExcept_ok_id {f : JSVal → Except String JSVal} :
    ∀ {l : List JSVal}, (∀ x ∈ l, f x = .ok x) → mapExcept f l = .ok l := by
  intro l
  induction l with
  | nil => intro _; rfl
  | cons a t ih =>
    intro h
    rw [mapExcept, h a (List.mem_cons_self a t),
      ih (fun x hx => h x (List.mem_cons_of_mem a hx))]

/-- Assigning a fresh key appends it. -/
theorem objInsert_fresh : ∀ (fields : List (String × JSVal)) (key : String) (v : JSVal),
    hasKey fields key = false → objInsert fields key v = fields ++ [(key, v)]
  | [], _, _, _ => rfl
  | (k, w) :: rest, key, v, h => by
    rw [hasKey, Bool.or_eq_false_iff] at h
    rw [objInsert, if_neg (of_decide_eq_false h.1), objInsert_fresh rest key v h.2]
    rfl

theorem hasKey_append (l1 l2 : List (String × JSVal)) (key : String) :
    hasKey (l1 ++ l2) key = (hasKey l1 key || hasKey l2 key) := by
  induction l1 with
  | nil => rw [List.nil_append, hasKey, Bool.false_or]
  | cons p t ih => obtain ⟨k, w⟩ := p; rw [List.cons_append, hasKey, hasKey, ih, Bool.or_assoc]

/-- No member of a key-free list carries the key. -/
theorem hasKey_false_ne : ∀ {fields : List (String × JSVal)} {key : String},
    hasKey fields key = false → ∀ p ∈ fields, p.1 ≠ key := by
  intro fields key h p hp
  induction fields with
  | nil => cases hp
  | cons a t ih =>
    obtain ⟨k, w⟩ := a
    rw [hasKey, Bool.or_eq_false_iff] at h
    rcases List.mem_cons.mp hp with rfl | hm
    · exact of_decide_eq_false h.1
    · exact ih h.2 hm

/-- The entry-conversion loop is the identity when the converter is, the keys
are distinct, and none of them is already in the accumulator. -/
theorem convertEntriesLoop_id (conv : JSVal → Except String JSVal) :
    ∀ (fields acc : List (String × JSVal)),
      (∀ p ∈ fields, conv p.2 = .ok p.2) →
      (∀ p ∈ fields, hasKey acc p.1 = false) →
      keysDistinct fields = true →
      convertEntriesLoop conv acc fields = .ok (acc ++ fields)
  | [], acc, _, _, _ => by rw [convertEntriesLoop, List.append_nil]
  | (k, v) :: rest, acc, hconv, hfresh, hdist => by
    rw [keysDistinct, Bool.and_eq_true, Bool.not_eq_true'] at hdist
    rw [convertEntriesLoop, hconv (k, v) (List.mem_cons_self _ _)]
    show convertEntriesLoop conv (objInsert acc k v) rest = Except.ok (acc ++ (k, v) :: rest)
    rw [objInsert_fresh acc k v (hfresh (k, v) (List.mem_cons_self _ _)),
      convertEntriesLoop_id conv rest (acc ++ [(k, v)])
        (fun p hp => hconv p (List.mem_cons_of_mem _ hp))
        (fun p hp => by
          rw [hasKey_append, Bool.or_eq_false_iff]
          refine ⟨hfresh p (List.mem_cons_of_mem _ hp), ?_⟩
          rw [hasKey, hasKey, Bool.or_false]
          exact decide_eq_false ((hasKey_false_ne hdist.1 p hp).symm))
        hdist.2,
      List.append_assoc]
    rfl

/-- Unpacking `isPlainDataElems`. -/
theorem isPlainDataElems_sound : ∀ {items : List JSVal}, isPlainDataElems items = true →
    ∀ x ∈ items, isArrayV x = false ∧ isPlainData x = true := by
  intro items h x hx
  induction items with
  | nil => cases hx
  | cons a t ih =>
    rw [isPlainDataElems, Bool.and_eq_true, Bool.and_eq_true, Bool.not_eq_true'] at h
    rcases List.mem_cons.mp hx with rfl | hm
    · exact ⟨h.1.1, h.1.2⟩
    · exact ih h.2 hm

/-- Unpacking `isPlainDataFields`. -/
theorem isPlainDataFields_sound : ∀ {fields : List (String × JSVal)},
    isPlainDataFields fields = true → ∀ p ∈ fields, isPlainData p.2 = true := by
  intro fields h p hp
  induction fields with
  | nil => cases hp
  | cons a t ih =>
    obtain ⟨k, v⟩ := a
    rw [isPlainDataFields, Bool.and_eq_true] at h
    rcases List.mem_cons.mp hp with rfl | hm
    · exact h.1
    · exact ih h.2 hm

/-- Unpacking `noArrayMarkL`. -/
theorem noArrayMarkL_sound : ∀ {items : List JSVal}, noArrayMarkL items = true →
    ∀ x ∈ items, noArrayMark x = true := by
  intro items h x hx
  induction items with
  | nil => cases hx
  | cons a t ih =>
    rw [noArrayMarkL, Bool.and_eq_true] at h
    rcases List.mem_cons.mp hx with rfl | hm
    · exact h.1
    · exact ih h.2 hm

/-- Unpacking `noArrayMarkF`. -/
theorem noArrayMarkF_sound : ∀ {fields : List (String × JSVal)}, noArrayMarkF fields = true →
    ∀ p ∈ fields, noArrayMark p.2 = true := by
  intro fields h p hp
  induction fields with
  | nil => cases hp
  | cons a t ih =>
    obtain ⟨k, v⟩ := a
    rw [noArrayMarkF, Bool.and_eq_true] at h
    rcases List.mem_cons.mp hp with rfl | hm
    · exact h.1
    · exact ih h.2 hm

/-- A successful table lookup returns a member's converter. -/
theorem tableLookup_mem {table : List (String × (JSVal → JSVal))} {k : String}
    {f : JSVal → JSVal} (h : tableLookup table k = some f) : ∃ p ∈ table, p.2 = f := by
  unfold tableLookup at h
  cases hf : table.find? (fun p => p.1 = k) with
  | none => rw [hf] at h; cases h
  | some p =>
    rw [hf] at h
    exact ⟨p, List.mem_of_find?_eq_some hf, by injection h⟩

/-- If every registered converter always returns a `ContinueConversion`
instance, the preamble falls through on every value. -/
theorem applyCustomConverters_allContinue {table : List (String × (JSVal → JSVal))}
    (v : JSVal) (hall : ∀ p ∈ table, ∀ x, isContinueConversion (p.2 x) = true) :
    applyCustomConverters table v = none := by
  have hcont : ∀ (k : String) (f : JSVal → JSVal), tableLookup table k = some f →
      isContinueConversion (f v) = true := by
    intro k f hf
    obtain ⟨p, hp, rfl⟩ := tableLookup_mem hf
    exact hall p hp v
  cases h1 : tableLookup table (jsTypeof v) with
  | none =>
    cases h2 : constructorName v with
    | none => simp [applyCustomConverters, h1, h2]
    | some n =>
      cases h3 : tableLookup table n with
      | none => simp [applyCustomConverters, h1, h2, h3]
      | some g => simp [applyCustomConverters, h1, h2, h3, hcont n g h3]
  | some f =>
    cases h2 : constructorName v with
    | none => simp [applyCustomConverters, h1, h2, hcont _ f h1]
    | some n =>
      cases h3 : tableLookup table n with
      | none => simp [applyCustomConverters, h1, h2, h3, hcont _ f h1]
      | some g => simp [applyCustomConverters, h1, h2, h3, hcont _ f h1, hcont n g h3]

/-- A non-continuing type-tag converter decides the preamble. -/
theorem applyCustomConverters_tag {table : List (String × (JSVal → JSVal))} {v : JSVal}
    {f : JSVal → JSVal} (h1 : tableLookup table (jsTypeof v) = some f)
    (h2 : isContinueConversion (f v) = false) :
    applyCustomConverters table v = some (f v) := by
  simp [applyCustomConverters, h1, h2]

/-- Failing the type tag, a non-continuing constructor-name converter decides
the preamble. -/
theorem applyCustomConverters_name {table : List (String × (JSVal → JSVal))} {v : JSVal}
    {g : JSVal → JSVal} {n : String}
    (h1 : ∀ f, tableLookup table (jsTypeof v) = some f → isContinueConversion (f v) = true)
    (h2 : constructorName v = some n) (h3 : n ≠ "")
    (h4 : tableLookup table n = some g) (h5 : isContinueConversion (g v) = false) :
    applyCustomConverters table v = some (g v) := by
  cases htag : tableLookup table (jsTypeof v) with
  | none => simp [applyCustomConverters, htag, h2, h3, h4, h5]
  | some f => simp [applyCustomConverters, htag, h1 f htag, h2, h3, h4, h5]

/-- Pointwise-equal converters drive the entry loop identically. -/
theorem convertEntriesLoop_congr {conv1 conv2 : JSVal → Except String JSVal}
    (h : ∀ x, conv1 x = conv2 x) :
    ∀ (fields acc : List (String × JSVal)),
      convertEntriesLoop conv1 acc fields = convertEntriesLoop conv2 acc fields
  | [], acc => rfl
  | (k, v) :: rest, acc => by
    rw [convertEntriesLoop, convertEntriesLoop, h v]
    cases conv2 v with
    | error e => rfl
    | ok w => exact convertEntriesLoop_congr h rest (objInsert acc k w)

/-- Pointwise-equal converters drive the array decode loop identically. -/
theorem decodeArrayLoop_congr {conv1 conv2 : JSVal → Except String JSVal}
    (h : ∀ x, conv1 x = conv2 x) (ck : String) :
    ∀ (entries : List (String × JSVal)) (acc : List JSVal),
      decodeArrayLoop conv1 ck acc entries = decodeArrayLoop conv2 ck acc entries
  | [], acc => rfl
  | (k, v) :: rest, acc => by
    by_cases hk : k = ck
    · rw [decodeArrayLoop, decodeArrayLoop, if_pos hk, if_pos hk]
      exact decodeArrayLoop_congr h ck rest acc
    · rw [decodeArrayLoop, decodeArrayLoop, if_neg hk, if_neg hk, h v]
      cases conv2 v with
      | error e => rfl
      | ok w =>
        dsimp only
        cases arrAssign acc k w with
        | error e => rfl
        | ok acc2 => exact decodeArrayLoop_congr h ck rest acc2

mutual

/-- Outbound conversion with converters that always continue coincides with
outbound conversion with no converters at all. -/
theorem convertTo_allContinue (opts : FirestoreDataConverterOptions)
    (hall : ∀ p ∈ opts.toFirestoreConverters, ∀ x, isContinueConversion (p.2 x) = true) :
    ∀ (fuel : Nat) (v : JSVal) (ia : Bool),
      convertValueToFirestore opts fuel v ia
        = convertValueToFirestore { opts with toFirestoreConverters := [] } fuel v ia
  | 0, _, _ => rfl
  | fuel + 1, v, ia => by
    simp only [convertValueToFirestore]
    rw [applyCustomConverters_allContinue v hall, applyCustomConverters_nil]
    cases v with
    | vArr items =>
      dsimp only
      rw [mapExcept_congr (fun x _ => convertTo_allContinue opts hall fuel x true),
        convertToTypedPlainObject_allContinue opts hall fuel (vArr items) true]
    | vObj chain fields =>
      dsimp only
      rw [convertEntriesLoop_congr (fun x => convertTo_allContinue opts hall fuel x false)
          fields [],
        convertToTypedPlainObject_allContinue opts hall fuel (vObj chain fields) true]
    | _ => rfl

/-- The typed-plain-object encoder under the same transparency hypothesis. -/
theorem convertToTypedPlainObject_allContinue (opts : FirestoreDataConverterOptions)
    (hall : ∀ p ∈ opts.toFirestoreConverters, ∀ x, isContinueConversion (p.2 x) = true) :
    ∀ (fuel : Nat) (object : JSVal) (cv : Bool),
      convertToTypedPlainObject opts fuel object cv
        = convertToTypedPlainObject { opts with toFirestoreConverters := [] } fuel object cv
  | 0, _, _ => rfl
  | fuel + 1, object, cv => by
    simp only [convertToTypedPlainObject]
    rw [mapExcept_congr (fun key _ => by
      rw [convertTo_allContinue opts hall fuel (getProp object key) false])]

end

/-- Inbound conversion with converters that always continue coincides with
inbound conversion with no converters at all. -/
theorem convertFrom_allContinue (opts : FirestoreDataConverterOptions)
    (hall : ∀ p ∈ opts.fromFirestoreConverters, ∀ x, isContinueConversion (p.2 x) = true) :
    ∀ (fuel : Nat) (v : JSVal),
      convertValueFromFirestore opts fuel v
        = convertValueFromFirestore { opts with fromFirestoreConverters := [] } fuel v
  | 0, _ => rfl
  | fuel + 1, v => by
    simp only [convertValueFromFirestore]
    rw [applyCustomConverters_allContinue v hall, applyCustomConverters_nil]
    cases v with
    | vArr items =>
      dsimp only
      rw [mapExcept_congr (fun x _ => convertFrom_allContinue opts hall fuel x)]
    | vObj chain fields =>
      dsimp only [jsEntries]
      rw [decodeArrayLoop_congr (fun x => convertFrom_allContinue opts hall fuel x)
          opts.constructorKey fields [],
        convertEntriesLoop_congr (fun x => convertFrom_allContinue opts hall fuel x)
          fields []]
    | _ => rfl

/-! ## Claim C3: custom-converter precedence and fall-through -/

/-- C3: (i) a custom converter registered under the value's runtime type tag
whose result is not a `ContinueConversion` instance decides the conversion,
ahead of every built-in case; (ii) failing that, the converter registered
under the value's (truthy) constructor name does; (iii) converters that
return a `ContinueConversion` instance on every value are transparent: the
conversion coincides with default dispatch (an empty converter table).
Parts (iv)-(vi) state the same for inbound conversion. -/
theorem c3_custom_converter_precedence :
    (∀ (opts : FirestoreDataConverterOptions) (fuel : Nat) (v : JSVal) (ia : Bool)
        (f : JSVal → JSVal),
        tableLookup opts.toFirestoreConverters (jsTypeof v) = some f →
        isContinueConversion (f v) = false →
        convertValueToFirestore opts (fuel + 1) v ia = .ok (f v)) ∧
    (∀ (opts : FirestoreDataConverterOptions) (fuel : Nat) (v : JSVal) (ia : Bool)
        (g : JSVal → JSVal) (n : String),
        (∀ f, tableLookup opts.toFirestoreConverters (jsTypeof v) = some f →
            isContinueConversion (f v) = true) →
        constructorName v = some n → n ≠ "" →
        tableLookup opts.toFirestoreConverters n = some g →
        isContinueConversion (g v) = false →
        convertValueToFirestore opts (fuel + 1) v ia = .ok (g v)) ∧
    (∀ (opts : FirestoreDataConverterOptions) (fuel : Nat) (v : JSVal) (ia : Bool),
        (∀ p ∈ opts.toFirestoreConverters, ∀ x, isContinueConversion (p.2 x) = true) →
        convertValueToFirestore opts fuel v ia
          = convertValueToFirestore { opts with toFirestoreConverters := [] } fuel v ia) ∧
    (∀ (opts : FirestoreDataConverterOptions) (fuel : Nat) (v : JSVal)
        (f : JSVal → JSVal),
        tableLookup opts.fromFirestoreConverters (jsTypeof v) = some f →
        isContinueConversion (f v) = false →
        convertValueFromFirestore opts (fuel + 1) v = .ok (f v)) ∧
    (∀ (opts : FirestoreDataConverterOptions) (fuel : Nat) (v : JSVal)
        (g : JSVal → JSVal) (n : String),
        (∀ f, tableLookup opts.fromFirestoreConverters (jsTypeof v) = some f →
            isContinueConversion (f v) = true) →
        constructorName v = some n → n ≠ "" →
        tableLookup opts.fromFirestoreConverters n = some g →
        isContinueConversion (g v) = false →
        convertValueFromFirestore opts (fuel + 1) v = .ok (g v)) ∧
    (∀ (opts : FirestoreDataConverterOptions) (fuel : Nat) (v : JSVal),
        (∀ p ∈ opts.fromFirestoreConverters, ∀ x, isContinueConversion (p.2 x) = true) →
        convertValueFromFirestore opts fuel v
          = convertValueFromFirestore
              { opts with fromFirestoreConverters := [] } fuel v) := by
  refine ⟨?_, ?_, ?_, ?_, ?_, ?_⟩
  · intro opts fuel v ia f h1 h2
    cases v <;> rw [convertValueToFirestore, applyCustomConverters_tag h1 h2]
  · intro opts fuel v ia g n h1 h2 h3 h4 h5
    cases v <;> rw [convertValueToFirestore, applyCustomConverters_name h1 h2 h3 h4 h5]
  · intro opts fuel v ia hall
    exact convertTo_allContinue opts hall fuel v ia
  · intro opts fuel v f h1 h2
    cases v <;> rw [convertValueFromFirestore, applyCustomConverters_tag h1 h2]
    all_goals exact fun _ h => JSVal.noConfusion h
  · intro opts fuel v g n h1 h2 h3 h4 h5
    cases v <;> rw [convertValueFromFirestore, applyCustomConverters_name h1 h2 h3 h4 h5]
    all_goals exact fun _ h => JSVal.noConfusion h
  · intro opts fuel v hall
    exact convertFrom_allContinue opts hall fuel v

/-- Witness for `c3_custom_converter_precedence`: a non-continuing type-tag
converter decides the result for the number 5; an always-continuing converter
leaves the conversion equal to converter-free dispatch. -/
theorem c3_custom_converter_precedence_witness :
    convertValueToFirestore
        { defaultOptions with
          toFirestoreConverters := [("number", fun _ => vStr "tagged")] } 3
        (vNum 5) false = .ok (vStr "tagged") ∧
    convertValueToFirestore
        { defaultOptions with
          toFirestoreConverters := [("number", fun _ => continueConversion)] } 3
        (vNum 5) false
      = convertValueToFirestore { defaultOptions with toFirestoreConverters := [] } 3
          (vNum 5) false :=
  ⟨c3_custom_converter_precedence.1
      { defaultOptions with toFirestoreConverters := [("number", fun _ => vStr "tagged")] }
      2 (vNum 5) false (fun _ => vStr "tagged") rfl rfl,
   c3_custom_converter_precedence.2.2.1
      { defaultOptions with
        toFirestoreConverters := [("number", fun _ => continueConversion)] }
      3 (vNum 5) false (by
      intro p hp x
      simp only [List.mem_singleton] at hp
      subst hp
      rfl)⟩

/-! ## Claim C1: round-trip of plain data -/

/-- Outbound conversion under the default options is the identity on plain
data (whose conversion never reaches an `undefined`, function, or
nested-array case). -/
theorem convertTo_plainData_id :
    ∀ (fuel : Nat) (v : JSVal) (ia : Bool),
      fuelNeed v ≤ fuel → isPlainData v = true → (ia = true → isArrayV v = false) →
      convertValueToFirestore defaultOptions fuel v ia = .ok v
  | 0, v, _, hfuel, _, _ => absurd hfuel (by have := fuelNeed_pos v; omega)
  | fuel + 1, vNum n, _, _, _, _ => rfl
  | fuel + 1, vBool b, _, _, _, _ => rfl
  | fuel + 1, vStr s, _, _, _, _ => rfl
  | fuel + 1, vBigInt n, _, _, _, _ => rfl
  | fuel + 1, vNull, _, _, hpd, _ => Bool.noConfusion hpd
  | fuel + 1, vUndefined, _, _, hpd, _ => Bool.noConfusion hpd
  | fuel + 1, vSymbol d, _, _, hpd, _ => Bool.noConfusion hpd
  | fuel + 1, vFunc n s, _, _, hpd, _ => Bool.noConfusion hpd
  | fuel + 1, vDate t, _, _, hpd, _ => Bool.noConfusion hpd
  | fuel + 1, vTimestamp t, _, _, hpd, _ => Bool.noConfusion hpd
  | fuel + 1, vDocRef p, _, _, hpd, _ => Bool.noConfusion hpd
  | fuel + 1, vGeoPoint a b, _, _, hpd, _ => Bool.noConfusion hpd
  | fuel + 1, vFieldValue t, _, _, hpd, _ => Bool.noConfusion hpd
  | fuel + 1, vArr items, ia, hfuel, hpd, hia => by
    have hia0 : ia = false := by
      cases ia
      · rfl
      · exact absurd (hia rfl) (by simp [isArrayV])
    subst hia0
    have hL : fuelNeedL items ≤ fuel := by
      rw [show fuelNeed (vArr items) = 2 + fuelNeedL items from rfl] at hfuel
      omega
    rw [convertValueToFirestore,
      show defaultOptions.toFirestoreConverters = [] from rfl, applyCustomConverters_nil]
    have hmap :
        mapExcept (fun item => convertValueToFirestore defaultOptions fuel item true) items
          = .ok items := by
      apply mapExcept_ok_id
      intro x hx
      have hx' := isPlainDataElems_sound hpd x hx
      exact convertTo_plainData_id fuel x true (le_trans (fuelNeedL_le hx) hL) hx'.2
        (fun _ => hx'.1)
    simp [hmap]
  | fuel + 1, vObj chain fields, ia, hfuel, hpd, hia => by
    have hch : chain = ["Object"] ∧ keysDistinct fields = true ∧
        isPlainDataFields fields = true := by
      simpa [isPlainData, Bool.and_eq_true, decide_eq_true_eq, and_assoc] using hpd
    obtain ⟨rfl, hkd, hpf⟩ := hch
    have hF : fuelNeedF fields ≤ fuel := by
      rw [show fuelNeed (vObj ["Object"] fields) = 2 + fuelNeedF fields from rfl] at hfuel
      omega
    rw [convertValueToFirestore,
      show defaultOptions.toFirestoreConverters = [] from rfl, applyCustomConverters_nil]
    have hloop :
        convertEntriesLoop (fun val => convertValueToFirestore defaultOptions fuel val false)
          [] fields = .ok ([] ++ fields) := by
      apply convertEntriesLoop_id
      · intro p hp
        exact convertTo_plainData_id fuel p.2 false (le_trans (fuelNeedF_le hp) hF)
          (isPlainDataFields_sound hpf p hp) (fun h => Bool.noConfusion h)
      · intro p _; rfl
      · exact hkd
    simp +decide [hloop]

/-- Inbound conversion under the default options is the identity on plain
data carrying no `_constructor: "Array"` collision. -/
theorem convertFrom_plainData_id :
    ∀ (fuel : Nat) (v : JSVal),
      fuelNeed v ≤ fuel → isPlainData v = true → noArrayMark v = true →
      convertValueFromFirestore defaultOptions fuel v = .ok v
  | 0, v, hfuel, _, _ => absurd hfuel (by have := fuelNeed_pos v; omega)
  | fuel + 1, vNum n, _, _, _ => rfl
  | fuel + 1, vBool b, _, _, _ => rfl
  | fuel + 1, vStr s, _, _, _ => rfl
  | fuel + 1, vBigInt n, _, _, _ => rfl
  | fuel + 1, vNull, _, hpd, _ => Bool.noConfusion hpd
  | fuel + 1, vUndefined, _, hpd, _ => Bool.noConfusion hpd
  | fuel + 1, vSymbol d, _, hpd, _ => Bool.noConfusion hpd
  | fuel + 1, vFunc n s, _, hpd, _ => Bool.noConfusion hpd
  | fuel + 1, vDate t, _, hpd, _ => Bool.noConfusion hpd
  | fuel + 1, vTimestamp t, _, hpd, _ => Bool.noConfusion hpd
  | fuel + 1, vDocRef p, _, hpd, _ => Bool.noConfusion hpd
  | fuel + 1, vGeoPoint a b, _, hpd, _ => Bool.noConfusion hpd
  | fuel + 1, vFieldValue t, _, hpd, _ => Bool.noConfusion hpd
  | fuel + 1, vArr items, hfuel, hpd, hmark => by
    have hL : fuelNeedL items ≤ fuel := by
      rw [show fuelNeed (vArr items) = 2 + fuelNeedL items from rfl] at hfuel
      omega
    rw [convertValueFromFirestore,
      show defaultOptions.fromFirestoreConverters = [] from rfl, applyCustomConverters_nil,
      if_neg (show ¬constructorName (vArr items) = some "Timestamp" by
        simp only [constructorName]; decide)]
    have hmap :
        mapExcept (fun item => convertValueFromFirestore defaultOptions fuel item) items
          = .ok items := by
      apply mapExcept_ok_id
      intro x hx
      have hx' := isPlainDataElems_sound hpd x hx
      exact convertFrom_plainData_id fuel x (le_trans (fuelNeedL_le hx) hL) hx'.2
        (noArrayMarkL_sound hmark x hx)
    simp [hmap]
  | fuel + 1, vObj chain fields, hfuel, hpd, hmark => by
    have hch : chain = ["Object"] ∧ keysDistinct fields = true ∧
        isPlainDataFields fields = true := by
      simpa [isPlainData, Bool.and_eq_true, decide_eq_true_eq, and_assoc] using hpd
    obtain ⟨rfl, hkd, hpf⟩ := hch
    have hm : isStrEq ((lookupField fields "_constructor").getD vUndefined) "Array" = false ∧
        noArrayMarkF fields = true := by
      simpa [noArrayMark, Bool.and_eq_true, Bool.not_eq_true'] using hmark
    have hF : fuelNeedF fields ≤ fuel := by
      rw [show fuelNeed (vObj ["Object"] fields) = 2 + fuelNeedF fields from rfl] at hfuel
      omega
    rw [convertValueFromFirestore,
      show defaultOptions.fromFirestoreConverters = [] from rfl, applyCustomConverters_nil,
      if_neg (show ¬constructorName (vObj ["Object"] fields) = some "Timestamp" by
        simp only [constructorName, List.head?_cons]; decide)]
    have hloop :
        convertEntriesLoop (fun val => convertValueFromFirestore defaultOptions fuel val)
          [] fields = .ok ([] ++ fields) := by
      apply convertEntriesLoop_id
      · intro p hp
        exact convertFrom_plainData_id fuel p.2 (le_trans (fuelNeedF_le hp) hF)
          (isPlainDataFields_sound hpf p hp) (noArrayMarkF_sound hm.2 p hp)
      · intro p _; rfl
      · exact hkd
    have hgp : isStrEq (getProp (vObj ["Object"] fields) defaultOptions.constructorKey)
        "Array" = false := hm.1
    simp +decide [hloop, hgp, jsEntries]
    all_goals exact fun _ h => JSVal.noConfusion h

/-- C1 (counterexample): the plain object `{_constructor: "Array"}` is in the
claim's plain-data subset, yet the default round trip yields the empty array
`[]`, not the object back: inbound conversion decodes any object whose
`_constructor` field holds `"Array"` as a converted array (the collision the
design notes as a known limitation). -/
theorem c1_counterexample :
    isPlainData (vObj ["Object"] [("_constructor", vStr "Array")]) = true ∧
    (convertValueToFirestore defaultOptions 9
        (vObj ["Object"] [("_constructor", vStr "Array")]) false).bind
      (convertValueFromFirestore defaultOptions 9) = .ok (vArr []) ∧
    vArr [] ≠ vObj ["Object"] [("_constructor", vStr "Array")] :=
  ⟨rfl, rfl, fun h => JSVal.noConfusion h⟩

/-- C1 (amended): for every plain-data object — scalars, single-level arrays
and plain objects, recursively — in which no object maps the reserved key
`_constructor` to the string `"Array"`, the default round trip is the
identity. -/
theorem c1_plain_data_roundtrip (o : JSVal) (fuel1 fuel2 : Nat)
    (h1 : fuelNeed o ≤ fuel1) (h2 : fuelNeed o ≤ fuel2)
    (hpd : isPlainData o = true) (hmark : noArrayMark o = true) :
    (convertValueToFirestore defaultOptions fuel1 o false).bind
      (convertValueFromFirestore defaultOptions fuel2) = .ok o := by
  rw [convertTo_plainData_id fuel1 o false h1 hpd (fun h => Bool.noConfusion h)]
  exact convertFrom_plainData_id fuel2 o h2 hpd hmark

/-- Witness for `c1_plain_data_roundtrip` at a concrete nested plain object. -/
theorem c1_plain_data_roundtrip_witness :
    (convertValueToFirestore defaultOptions 8
        (vObj ["Object"] [("a", vNum 1), ("b", vArr [vStr "x", vObj ["Object"] []])]) false).bind
      (convertValueFromFirestore defaultOptions 8)
      = .ok (vObj ["Object"] [("a", vNum 1), ("b", vArr [vStr "x", vObj ["Object"] []])]) :=
  c1_plain_data_roundtrip _ 8 8 (by decide) (by decide) rfl rfl

/-! ## Claim C4: store-native type pass-through -/

/-- C4 (counterexample): an instance of a class extending `FieldValue` is an
instance of `FieldValue` in the prototype-chain sense of `src/util.js`, yet
outbound conversion does not return it unchanged: the constructor-name switch
compares only the value's own constructor name, so the subclass instance is
encoded as a typed plain object. -/
theorem c4_counterexample :
    isInstanceOf (vObj ["ServerTimestampTransform", "FieldValue", "Object"] [])
      "FieldValue" = true ∧
    convertValueToFirestore defaultOptions 9
        (vObj ["ServerTimestampTransform", "FieldValue", "Object"] []) false
      = .ok (vObj ["Object"] [("_constructor", vStr "ServerTimestampTransform")]) ∧
    vObj ["Object"] [("_constructor", vStr "ServerTimestampTransform")]
      ≠ vObj ["ServerTimestampTransform", "FieldValue", "Object"] [] := by
  refine ⟨rfl, rfl, fun h => ?_⟩
  injection h with h1 h2
  exact absurd h1 (by decide)

/-- C4 (amended): a value whose own constructor name is exactly
`DocumentReference`, `GeoPoint`, `Timestamp` or `FieldValue` is returned
unchanged by outbound conversion under the default options (an instance of a
proper subclass, whose own constructor name differs, is not). -/
theorem c4_firestore_types_passthrough (v : JSVal) (fuel : Nat) (ia : Bool)
    (h : (constructorName v).getD "" ∈ firestoreTypeNames) :
    convertValueToFirestore defaultOptions (fuel + 1) v ia = .ok v := by
  cases v
  case vObj chain fields =>
    rw [convertValueToFirestore,
      show defaultOptions.toFirestoreConverters = [] from rfl, applyCustomConverters_nil]
    simp only [constructorName] at h
    simp [h]
  case vDocRef p => rfl
  case vGeoPoint a b => rfl
  case vTimestamp t => rfl
  case vFieldValue t => rfl
  all_goals
    simp only [constructorName, Option.getD_some, Option.getD_none] at h
  all_goals exact absurd h (by decide)

/-- Witness for `c4_firestore_types_passthrough` at a concrete `GeoPoint`. -/
theorem c4_firestore_types_passthrough_witness :
    convertValueToFirestore defaultOptions 4 (vGeoPoint 1 2) true = .ok (vGeoPoint 1 2) :=
  c4_firestore_types_passthrough (vGeoPoint 1 2) 3 true (by decide)

/-! ## Claim C5: undefined fields in plain objects -/

/-- C5 (code evaluated at the failing input): the plain-object loop assigns
`result[key] = this.convertValueToFirestore(val)` unconditionally, so with
`undefinedValues = "omit"` the key `"a"` of `{a: undefined}` is still present
in the result, mapped to `undefined` — the jsdoc (`omit` will omit the
property) and the claim say the key should be absent.  The `"null"` half of
the claim behaves as stated. -/
theorem c5_undefined_field_evaluation :
    convertValueToFirestore defaultOptions 9 (vObj ["Object"] [("a", vUndefined)]) false
      = .ok (vObj ["Object"] [("a", vUndefined)]) ∧
    hasKey [("a", vUndefined)] "a" = true ∧
    convertValueToFirestore { defaultOptions with undefinedValues := "null" } 9
        (vObj ["Object"] [("a", vUndefined)]) false
      = .ok (vObj ["Object"] [("a", vNull)]) := ⟨rfl, rfl, rfl⟩

/-! ## Claim C7: class instances are encoded, not reconstructed -/

/-- C7: with default options, `new Point(1,2)` outbound-converts to the plain
object `{x:1, y:2, _constructor:"Point"}`, and inbound conversion of that
object yields the same plain mapping — not a `Point` instance. -/
theorem c7_class_instance_lossy :
    convertValueToFirestore defaultOptions 9
        (vObj ["Point", "Object"] [("x", vNum 1), ("y", vNum 2)]) false
      = .ok (vObj ["Object"] [("x", vNum 1), ("y", vNum 2), ("_constructor", vStr "Point")]) ∧
    convertValueFromFirestore defaultOptions 9
        (vObj ["Object"] [("x", vNum 1), ("y", vNum 2), ("_constructor", vStr "Point")])
      = .ok (vObj ["Object"] [("x", vNum 1), ("y", vNum 2), ("_constructor", vStr "Point")]) ∧
    isInstanceOf (vObj ["Object"] [("x", vNum 1), ("y", vNum 2), ("_constructor", vStr "Point")])
      "Point" = false := ⟨rfl, rfl, rfl⟩

/-! ## Claim C2: nested-array encoding and round-trip -/

/-- C2 (counterexample): the encoding of `[1,2]` produced inside
`[[1,2],[3,4]]` does not carry only numeric-string keys below the tag:
`Object.getOwnPropertyNames` includes the array's `length` property, so the
key `"length"` — neither numeric nor the tag key — is present, mapped to the
array's length. -/
theorem c2_counterexample :
    convertValueToFirestore defaultOptions 9
        (vArr [vArr [vNum 1, vNum 2], vArr [vNum 3, vNum 4]]) false
      = .ok (vArr
          [vObj ["Object"] [("0", vNum 1), ("1", vNum 2), ("length", vNum 2),
                            ("_constructor", vStr "Array")],
           vObj ["Object"] [("0", vNum 3), ("1", vNum 4), ("length", vNum 2),
                            ("_constructor", vStr "Array")]]) ∧
    lookupField [("0", vNum 1), ("1", vNum 2), ("length", vNum 2),
                 ("_constructor", vStr "Array")] "length" = some (vNum 2) ∧
    parseArrayIndex "length" = none ∧
    "length" ≠ "_constructor" := ⟨rfl, rfl, rfl, by decide⟩

/-- C2 (amended): with `multidimensionalArrays = "convert"` and empty
converter tables, outbound conversion of `[[1,2],[3,4]]` yields an array of
typed plain objects tagged `"Array"` under the tag key, holding the elements
under numeric-string keys plus the array's `length` under `"length"`; inbound
conversion of that result reconstructs `[[1,2],[3,4]]` exactly. -/
theorem c2_nested_array_roundtrip :
    convertValueToFirestore defaultOptions 9
        (vArr [vArr [vNum 1, vNum 2], vArr [vNum 3, vNum 4]]) false
      = .ok (vArr
          [vObj ["Object"] [("0", vNum 1), ("1", vNum 2), ("length", vNum 2),
                            ("_constructor", vStr "Array")],
           vObj ["Object"] [("0", vNum 3), ("1", vNum 4), ("length", vNum 2),
                            ("_constructor", vStr "Array")]]) ∧
    isStrEq (getProp (vObj ["Object"] [("0", vNum 1), ("1", vNum 2), ("length", vNum 2),
        ("_constructor", vStr "Array")]) "_constructor") "Array" = true ∧
    convertValueFromFirestore defaultOptions 9
        (vArr
          [vObj ["Object"] [("0", vNum 1), ("1", vNum 2), ("length", vNum 2),
                            ("_constructor", vStr "Array")],
           vObj ["Object"] [("0", vNum 3), ("1", vNum 4), ("length", vNum 2),
                            ("_constructor", vStr "Array")]])
      = .ok (vArr [vArr [vNum 1, vNum 2], vArr [vNum 3, vNum 4]]) := ⟨rfl, rfl, rfl⟩

/-! ## Claim C6: unrecognized policy modes -/

/-- C6 (counterexample): with `functions` set to an unrecognized mode and the
default fallback, converting a function value does not throw: the `functions`
switch has no default case, the function matches none of the later cases, and
the fallback switch returns it as-is. -/
theorem c6_counterexample :
    convertValueToFirestore { defaultOptions with functions := "bogus" } 9
      (vFunc "f" "function f() {}") false = .ok (vFunc "f" "function f() {}") := rfl

/-- C6 (amended): an unrecognized mode for `undefinedValues`,
`multidimensionalArrays` or `fallback` makes the conversion of a value that
needs that policy throw the corresponding defensive error, but an unrecognized
`functions` mode does not throw: it falls through to the fallback policy, and
with the default `fallback = "return"` the function is returned as-is. -/
theorem c6_invalid_policy_behavior :
    (∀ (opts : FirestoreDataConverterOptions) (fuel : Nat),
        opts.toFirestoreConverters = [] →
        opts.undefinedValues ≠ "omit" → opts.undefinedValues ≠ "null" →
        convertValueToFirestore opts (fuel + 1) vUndefined false
          = .error ("Invalid value for undefinedValues: " ++ opts.undefinedValues)) ∧
    (∀ (opts : FirestoreDataConverterOptions) (fuel : Nat),
        opts.toFirestoreConverters = [] →
        opts.multidimensionalArrays ≠ "convert" → opts.multidimensionalArrays ≠ "omit" →
        opts.multidimensionalArrays ≠ "error" →
        convertValueToFirestore opts (fuel + 2) (vArr [vArr []]) false
          = .error ("Invalid value for multidimensionalArrays: " ++ opts.multidimensionalArrays)) ∧
    (∀ (opts : FirestoreDataConverterOptions) (fuel : Nat) (name src : String),
        opts.toFirestoreConverters = [] →
        opts.functions ≠ "convert" → opts.functions ≠ "omit" → opts.functions ≠ "error" →
        opts.fallback ≠ "return" → opts.fallback ≠ "omit" → opts.fallback ≠ "error" →
        convertValueToFirestore opts (fuel + 1) (vFunc name src) false
          = .error ("Invalid value for fallback: " ++ opts.fallback)) ∧
    (∀ (opts : FirestoreDataConverterOptions) (fuel : Nat) (name src : String),
        opts.toFirestoreConverters = [] →
        opts.functions ≠ "convert" → opts.functions ≠ "omit" → opts.functions ≠ "error" →
        opts.fallback = "return" →
        convertValueToFirestore opts (fuel + 1) (vFunc name src) false
          = .ok (vFunc name src)) := by
  refine ⟨?_, ?_, ?_, ?_⟩
  · intro opts fuel h0 h1 h2
    rw [convertValueToFirestore, h0, applyCustomConverters_nil]
    split <;> simp_all
  · intro opts fuel h0 h1 h2 h3
    have inner : convertValueToFirestore opts (fuel + 1) (vArr []) true
        = .error ("Invalid value for multidimensionalArrays: "
            ++ opts.multidimensionalArrays) := by
      rw [convertValueToFirestore, h0, applyCustomConverters_nil]
      split <;> simp_all
    show convertValueToFirestore opts (fuel + 1 + 1) (vArr [vArr []]) false = _
    rw [convertValueToFirestore, h0, applyCustomConverters_nil]
    simp only [mapExcept, inner]
    simp
  · intro opts fuel name src h0 h1 h2 h3 h4 h5 h6
    rw [convertValueToFirestore, h0, applyCustomConverters_nil]
    split <;> simp_all
    unfold fallbackCase
    split <;> simp_all
  · intro opts fuel name src h0 h1 h2 h3 h4
    rw [convertValueToFirestore, h0, applyCustomConverters_nil]
    split <;> simp_all
    unfold fallbackCase
    split <;> simp_all

/-- Witness for `c6_invalid_policy_behavior` at concrete configurations. -/
theorem c6_invalid_policy_behavior_witness :
    convertValueToFirestore { defaultOptions with undefinedValues := "weird" } 7
        vUndefined false
      = .error ("Invalid value for undefinedValues: " ++ "weird") ∧
    convertValueToFirestore { defaultOptions with multidimensionalArrays := "weird" } 7
        (vArr [vArr []]) false
      = .error ("Invalid value for multidimensionalArrays: " ++ "weird") ∧
    convertValueToFirestore { defaultOptions with functions := "bogus", fallback := "bad" } 7
        (vFunc "f" "src") false
      = .error ("Invalid value for fallback: " ++ "bad") ∧
    convertValueToFirestore { defaultOptions with functions := "bogus" } 7
        (vFunc "f" "src") false
      = .ok (vFunc "f" "src") :=
  ⟨c6_invalid_policy_behavior.1 _ 6 rfl (by decide) (by decide),
   c6_invalid_policy_behavior.2.1 _ 5 rfl (by decide) (by decide) (by decide),
   c6_invalid_policy_behavior.2.2.1 _ 6 "f" "src" rfl (by decide) (by decide) (by decide)
     (by decide) (by decide) (by decide),
   c6_invalid_policy_behavior.2.2.2 _ 6 "f" "src" rfl (by decide) (by decide) (by decide) rfl⟩

/-! ## Claim C9: primitive scalars pass through unchanged -/

/-- C9 (counterexample): the claim's hypothesis only rules out a converter
under the value's runtime type tag, but the dispatch also consults the
converter registered under the value's boxed constructor name: with a
converter registered under `"Number"` (and none under `"number"`), outbound
conversion of the number `0` returns the converter's value, not `0`. -/
theorem c9_counterexample :
    tableLookup [("Number", fun _ => vStr "intercepted")] (jsTypeof (vNum 0)) = none ∧
    convertValueToFirestore
        { defaultOptions with
          toFirestoreConverters := [("Number", fun _ => vStr "intercepted")] } 5
        (vNum 0) false
      = .ok (vStr "intercepted") ∧
    vStr "intercepted" ≠ vNum 0 :=
  ⟨rfl, rfl, fun h => JSVal.noConfusion h⟩

/-- C9 (amended): a primitive scalar (number, boolean, string, bigint) is
returned unchanged by both directions, provided no custom converter is
registered under its runtime type tag nor under its boxed constructor name. -/
theorem c9_scalar_identity (opts : FirestoreDataConverterOptions) (v : JSVal) (fuel : Nat)
    (hs : jsTypeof v = "number" ∨ jsTypeof v = "boolean" ∨ jsTypeof v = "string" ∨
          jsTypeof v = "bigint")
    (ht : tableLookup opts.toFirestoreConverters (jsTypeof v) = none)
    (hc : tableLookup opts.toFirestoreConverters ((constructorName v).getD "") = none)
    (ht2 : tableLookup opts.fromFirestoreConverters (jsTypeof v) = none)
    (hc2 : tableLookup opts.fromFirestoreConverters ((constructorName v).getD "") = none) :
    convertValueToFirestore opts (fuel + 1) v false = .ok v ∧
    convertValueFromFirestore opts (fuel + 1) v = .ok v := by
  cases v
  case vNum n =>
    refine ⟨by rw [convertValueToFirestore, applyCustomConverters_none _ _ ht hc], ?_⟩
    rw [convertValueFromFirestore, applyCustomConverters_none _ _ ht2 hc2]
    simp [constructorName, getProp, isStrEq, jsTypeof]
    all_goals exact fun _ h => JSVal.noConfusion h
  case vBool b =>
    refine ⟨by rw [convertValueToFirestore, applyCustomConverters_none _ _ ht hc], ?_⟩
    rw [convertValueFromFirestore, applyCustomConverters_none _ _ ht2 hc2]
    simp [constructorName, getProp, isStrEq, jsTypeof]
    all_goals exact fun _ h => JSVal.noConfusion h
  case vBigInt n =>
    refine ⟨by rw [convertValueToFirestore, applyCustomConverters_none _ _ ht hc], ?_⟩
    rw [convertValueFromFirestore, applyCustomConverters_none _ _ ht2 hc2]
    simp [constructorName, getProp, isStrEq, jsTypeof]
    all_goals exact fun _ h => JSVal.noConfusion h
  case vStr s =>
    refine ⟨by rw [convertValueToFirestore, applyCustomConverters_none _ _ ht hc], ?_⟩
    rw [convertValueFromFirestore, applyCustomConverters_none _ _ ht2 hc2]
    by_cases hL : opts.constructorKey = "length" <;>
      simp [constructorName, getProp, isStrEq, jsTypeof, hL]
    all_goals exact fun _ h => JSVal.noConfusion h
  all_goals simp only [jsTypeof] at hs
  all_goals rcases hs with h | h | h | h <;> exact absurd h (by decide)

/-- Witness for `c9_scalar_identity` at the number `42`. -/
theorem c9_scalar_identity_witness :
    convertValueToFirestore defaultOptions 3 (vNum 42) false = .ok (vNum 42) ∧
    convertValueFromFirestore defaultOptions 3 (vNum 42) = .ok (vNum 42) :=
  c9_scalar_identity defaultOptions (vNum 42) 2 (Or.inl rfl) rfl rfl rfl rfl

/-! ## Claims C8 and C10: nested arrays under the error and omit policies -/

/-- A map over elements that all succeed, with pointwise access to the
results. -/
theorem mapExcept_ok_pointwise {α β : Type} {f : α → Except String β} :
    ∀ {l : List α}, (∀ x ∈ l, ∃ y, f x = .ok y) →
      ∃ res, mapExcept f l = .ok res ∧ res.length = l.length ∧
        (∀ (i : Nat) (x : α), l.get? i = some x → ∃ y, f x = .ok y ∧ res.get? i = some y)
  | [], _ => ⟨[], rfl, rfl, fun i x h => nomatch h⟩
  | a :: t, h => by
    obtain ⟨y, hy⟩ := h a (List.mem_cons_self a t)
    obtain ⟨res, hres, hlen, hpt⟩ :=
      mapExcept_ok_pointwise (fun x hx => h x (List.mem_cons_of_mem a hx))
    refine ⟨y :: res, ?_, by simp [hlen], ?_⟩
    · rw [mapExcept, hy, hres]
    · intro i x hi
      cases i with
      | zero =>
        refine ⟨y, ?_, rfl⟩
        have : a = x := by injection hi
        rw [← this]; exact hy
      | succ i => exact hpt i x hi

/-- A map over elements that either fail with `msg` or succeed, at least one
failing, fails with `msg` (the first thrown error aborts the whole map). -/
theorem mapExcept_error_first {α β : Type} {f : α → Except String β} {msg : String} :
    ∀ {l : List α}, (∀ x ∈ l, f x = .error msg ∨ ∃ y, f x = .ok y) →
      (∃ x ∈ l, f x = .error msg) → mapExcept f l = .error msg
  | [], _, hex => by rcases hex with ⟨x, hx, _⟩; cases hx
  | a :: t, hall, hex => by
    rcases hall a (List.mem_cons_self a t) with ha | ⟨y, hy⟩
    · rw [mapExcept, ha]
    · rw [mapExcept, hy]
      have hext : ∃ x ∈ t, f x = .error msg := by
        rcases hex with ⟨x, hx, hfx⟩
        rcases List.mem_cons.mp hx with rfl | hm
        · rw [hfx] at hy; cases hy
        · exact ⟨x, hm, hfx⟩
      rw [mapExcept_error_first (fun x hx => hall x (List.mem_cons_of_mem a hx)) hext]

/-- The entry loop over fields that all convert successfully succeeds. -/
theorem convertEntriesLoop_ok_of_all {f : JSVal → Except String JSVal} :
    ∀ {fields : List (String × JSVal)} (acc : List (String × JSVal)),
      (∀ p ∈ fields, ∃ w, f p.2 = .ok w) →
      ∃ res, convertEntriesLoop f acc fields = .ok res
  | [], acc, _ => ⟨acc, rfl⟩
  | (k, v) :: rest, acc, h => by
    obtain ⟨w, hw⟩ := h (k, v) (List.mem_cons_self _ _)
    rw [convertEntriesLoop, hw]
    exact convertEntriesLoop_ok_of_all (objInsert acc k w)
      (fun p hp => h p (List.mem_cons_of_mem _ hp))

/-- The entry loop fails with `msg` when every field either fails with `msg`
or succeeds and at least one fails. -/
theorem convertEntriesLoop_error_first {f : JSVal → Except String JSVal} {msg : String} :
    ∀ {fields : List (String × JSVal)} (acc : List (String × JSVal)),
      (∀ p ∈ fields, f p.2 = .error msg ∨ ∃ w, f p.2 = .ok w) →
      (∃ p ∈ fields, f p.2 = .error msg) →
      convertEntriesLoop f acc fields = .error msg
  | [], _, _, hex => by rcases hex with ⟨p, hp, _⟩; cases hp
  | (k, v) :: rest, acc, hall, hex => by
    rcases hall (k, v) (List.mem_cons_self _ _) with ha | ⟨w, hw⟩
    · rw [convertEntriesLoop, ha]
    · rw [convertEntriesLoop, hw]
      have hext : ∃ p ∈ rest, f p.2 = .error msg := by
        rcases hex with ⟨p, hp, hfp⟩
        rcases List.mem_cons.mp hp with rfl | hm
        · rw [hfp] at hw; cases hw
        · exact ⟨p, hm, hfp⟩
      exact convertEntriesLoop_error_first (objInsert acc k w)
        (fun p hp => hall p (List.mem_cons_of_mem _ hp)) hext

/-- A key present in a field list resolves to some member's value. -/
theorem getProp_key_mem {c : List String} {key : String} :
    ∀ {fields : List (String × JSVal)}, key ∈ fields.map Prod.fst →
      ∃ p ∈ fields, p.1 = key ∧ getProp (vObj c fields) key = p.2 := by
  intro fields h
  induction fields with
  | nil => cases h
  | cons a t ih =>
    obtain ⟨k, v⟩ := a
    by_cases hk : k = key
    · subst hk
      exact ⟨(k, v), List.mem_cons_self _ _, rfl, by simp [getProp]⟩
    · have hmem : key ∈ t.map Prod.fst := by
        rcases List.mem_cons.mp h with h1 | h1
        · exact absurd h1.symm hk
        · exact h1
      obtain ⟨p, hp, hpk, hpv⟩ := ih hmem
      refine ⟨p, List.mem_cons_of_mem _ hp, hpk, ?_⟩
      rw [show getProp (vObj c ((k, v) :: t)) key = getProp (vObj c t) key by
        simp [getProp, List.find?, hk]]
      exact hpv

/-- With distinct keys, each field's key resolves to that field's value. -/
theorem getProp_self_of_distinct {chain : List String} :
    ∀ {fields : List (String × JSVal)}, keysDistinct fields = true →
      ∀ p ∈ fields, getProp (vObj chain fields) p.1 = p.2 := by
  intro fields hkd p hp
  induction fields with
  | nil => cases hp
  | cons a t ih =>
    obtain ⟨k, v⟩ := a
    rw [keysDistinct, Bool.and_eq_true, Bool.not_eq_true'] at hkd
    rcases List.mem_cons.mp hp with rfl | hm
    · simp [getProp]
    · have hne : p.1 ≠ k := fun he => by
        have := hasKey_false_ne hkd.1 p hm
        exact this he
      rw [show getProp (vObj chain ((k, v) :: t)) p.1 = getProp (vObj chain t) p.1 by
        simp [getProp, List.find?, Ne.symm hne]]
      exact ih hkd.2 hm

/-- Unpacking `wfKeysL`. -/
theorem wfKeysL_sound : ∀ {items : List JSVal}, wfKeysL items = true →
    ∀ x ∈ items, wfKeys x = true := by
  intro items h x hx
  induction items with
  | nil => cases hx
  | cons a t ih =>
    rw [wfKeysL, Bool.and_eq_true] at h
    rcases List.mem_cons.mp hx with rfl | hm
    · exact h.1
    · exact ih h.2 hm

/-- Unpacking `wfKeysF`. -/
theorem wfKeysF_sound : ∀ {fields : List (String × JSVal)}, wfKeysF fields = true →
    ∀ p ∈ fields, wfKeys p.2 = true := by
  intro fields h p hp
  induction fields with
  | nil => cases hp
  | cons a t ih =>
    obtain ⟨k, v⟩ := a
    rw [wfKeysF, Bool.and_eq_true] at h
    rcases List.mem_cons.mp hp with rfl | hm
    · exact h.1
    · exact ih h.2 hm

/-- `reachesNestedArrayL` as an existential. -/
theorem reachesNestedArrayL_iff {items : List JSVal} :
    reachesNestedArrayL items = true ↔ ∃ x ∈ items, reachesNestedArray x true = true := by
  induction items with
  | nil => simp [reachesNestedArrayL]
  | cons a t ih =>
    rw [reachesNestedArrayL, Bool.or_eq_true, ih]
    constructor
    · rintro (h | ⟨x, hx, hr⟩)
      · exact ⟨a, List.mem_cons_self a t, h⟩
      · exact ⟨x, List.mem_cons_of_mem a hx, hr⟩
    · rintro ⟨x, hx, hr⟩
      rcases List.mem_cons.mp hx with rfl | hm
      · exact Or.inl hr
      · exact Or.inr ⟨x, hm, hr⟩

/-- `reachesNestedArrayF` as an existential. -/
theorem reachesNestedArrayF_iff {fields : List (String × JSVal)} :
    reachesNestedArrayF fields = true ↔
      ∃ p ∈ fields, reachesNestedArray p.2 false = true := by
  induction fields with
  | nil => simp [reachesNestedArrayF]
  | cons a t ih =>
    obtain ⟨k, v⟩ := a
    rw [reachesNestedArrayF, Bool.or_eq_true, ih]
    constructor
    · rintro (h | ⟨p, hp, hr⟩)
      · exact ⟨(k, v), List.mem_cons_self _ _, h⟩
      · exact ⟨p, List.mem_cons_of_mem _ hp, hr⟩
    · rintro ⟨p, hp, hr⟩
      rcases List.mem_cons.mp hp with rfl | hm
      · exact Or.inl hr
      · exact Or.inr ⟨p, hm, hr⟩

/-- A map over elements that all succeed succeeds. -/
theorem mapExcept_ok_of_all {α β : Type} {f : α → Except String β} {l : List α}
    (h : ∀ x ∈ l, ∃ y, f x = .ok y) : ∃ res, mapExcept f l = .ok res :=
  let ⟨res, hr, _, _⟩ := mapExcept_ok_pointwise h
  ⟨res, hr⟩

/-- One-step unfolding of the encoder with `convertValues = true`, in the form
used by the inductions below. -/
theorem convertToTypedPlainObject_eq (opts : FirestoreDataConverterOptions)
    (fuel : Nat) (object : JSVal) :
    convertToTypedPlainObject opts (fuel + 1) object true
      = match mapExcept (fun key =>
            match convertValueToFirestore opts fuel (getProp object key) false with
            | Except.error e => Except.error e
            | Except.ok w => Except.ok (key, w)) (getOwnPropertyNames object) with
        | Except.error e => Except.error e
        | Except.ok entries =>
          Except.ok (vObj ["Object"] (objInsert (objFromList entries)
            opts.constructorKey (vStr ((constructorName object).getD "undefined")))) := rfl

mutual

/-- Under `multidimensionalArrays = "error"` (empty tables, other options at
defaults), outbound conversion throws exactly the nested-array error when its
traversal reaches an array in inside-array position, and succeeds
otherwise. -/
theorem c8aux_convert :
    ∀ (fuel : Nat) (v : JSVal) (ia : Bool), wfKeys v = true → fuelNeed v ≤ fuel →
      (reachesNestedArray v ia = true →
        convertValueToFirestore errorModeOptions fuel v ia
          = .error "Firestore can't handle multi-dimensional arrays") ∧
      (reachesNestedArray v ia = false →
        ∃ w, convertValueToFirestore errorModeOptions fuel v ia = .ok w)
  | 0, v, _, _, hfuel => absurd hfuel (by have := fuelNeed_pos v; omega)
  | fuel + 1, vNull, ia, _, _ => ⟨fun h => Bool.noConfusion h, fun _ => ⟨vNull, rfl⟩⟩
  | fuel + 1, vUndefined, ia, _, _ =>
      ⟨fun h => Bool.noConfusion h, fun _ => ⟨vUndefined, rfl⟩⟩
  | fuel + 1, vNum n, ia, _, _ => ⟨fun h => Bool.noConfusion h, fun _ => ⟨vNum n, rfl⟩⟩
  | fuel + 1, vBool b, ia, _, _ => ⟨fun h => Bool.noConfusion h, fun _ => ⟨vBool b, rfl⟩⟩
  | fuel + 1, vStr s, ia, _, _ => ⟨fun h => Bool.noConfusion h, fun _ => ⟨vStr s, rfl⟩⟩
  | fuel + 1, vBigInt n, ia, _, _ => ⟨fun h => Bool.noConfusion h, fun _ => ⟨vBigInt n, rfl⟩⟩
  | fuel + 1, vSymbol d, ia, _, _ =>
      ⟨fun h => Bool.noConfusion h, fun _ => ⟨vStr ("Symbol(" ++ d ++ ")"), rfl⟩⟩
  | fuel + 1, vFunc n s, ia, _, _ =>
      ⟨fun h => Bool.noConfusion h, fun _ => ⟨vUndefined, rfl⟩⟩
  | fuel + 1, vDate t, ia, _, _ => ⟨fun h => Bool.noConfusion h, fun _ => ⟨vDate t, rfl⟩⟩
  | fuel + 1, vTimestamp t, ia, _, _ =>
      ⟨fun h => Bool.noConfusion h, fun _ => ⟨vTimestamp t, rfl⟩⟩
  | fuel + 1, vDocRef p, ia, _, _ => ⟨fun h => Bool.noConfusion h, fun _ => ⟨vDocRef p, rfl⟩⟩
  | fuel + 1, vGeoPoint a b, ia, _, _ =>
      ⟨fun h => Bool.noConfusion h, fun _ => ⟨vGeoPoint a b, rfl⟩⟩
  | fuel + 1, vFieldValue t, ia, _, _ =>
      ⟨fun h => Bool.noConfusion h, fun _ => ⟨vFieldValue t, rfl⟩⟩
  | fuel + 1, vArr items, true, _, _ => ⟨fun _ => rfl, fun h => Bool.noConfusion h⟩
  | fuel + 1, vArr items, false, hwf, hfuel => by
    have hL : fuelNeedL items ≤ fuel := by
      rw [show fuelNeed (vArr items) = 2 + fuelNeedL items from rfl] at hfuel
      omega
    have hall : ∀ x ∈ items,
        convertValueToFirestore errorModeOptions fuel x true
            = .error "Firestore can't handle multi-dimensional arrays" ∨
          ∃ y, convertValueToFirestore errorModeOptions fuel x true = .ok y := by
      intro x hx
      have haux := c8aux_convert fuel x true (wfKeysL_sound hwf x hx)
        (le_trans (fuelNeedL_le hx) hL)
      cases hr : reachesNestedArray x true with
      | true => exact Or.inl (haux.1 hr)
      | false => exact Or.inr (haux.2 hr)
    constructor
    · intro h
      obtain ⟨x, hx, hr⟩ := reachesNestedArrayL_iff.mp h
      have herr :
          mapExcept (fun item => convertValueToFirestore errorModeOptions fuel item true)
            items = .error "Firestore can't handle multi-dimensional arrays" :=
        mapExcept_error_first hall
          ⟨x, hx, (c8aux_convert fuel x true (wfKeysL_sound hwf x hx)
            (le_trans (fuelNeedL_le hx) hL)).1 hr⟩
      rw [convertValueToFirestore,
        show errorModeOptions.toFirestoreConverters = [] from rfl, applyCustomConverters_nil]
      dsimp only
      rw [herr]
      rfl
    · intro h
      have hnone : ∀ x ∈ items, reachesNestedArray x true = false := by
        intro x hx
        cases hr : reachesNestedArray x true with
        | false => rfl
        | true =>
          rw [show reachesNestedArray (vArr items) false = reachesNestedArrayL items
            from rfl] at h
          rw [reachesNestedArrayL_iff.mpr ⟨x, hx, hr⟩] at h
          cases h
      obtain ⟨res, hres⟩ := mapExcept_ok_of_all (l := items)
        (f := fun item => convertValueToFirestore errorModeOptions fuel item true)
        (fun x hx => (c8aux_convert fuel x true (wfKeysL_sound hwf x hx)
          (le_trans (fuelNeedL_le hx) hL)).2 (hnone x hx))
      refine ⟨vArr res, ?_⟩
      rw [convertValueToFirestore,
        show errorModeOptions.toFirestoreConverters = [] from rfl, applyCustomConverters_nil]
      dsimp only
      rw [hres]
      rfl
  | fuel + 1, vObj chain fields, ia, hwf, hfuel => by
    have hwkd : keysDistinct fields = true ∧ wfKeysF fields = true := by
      simpa [wfKeys, Bool.and_eq_true] using hwf
    have hF1 : fuelNeedF fields + 1 ≤ fuel := by
      rw [show fuelNeed (vObj chain fields) = 2 + fuelNeedF fields from rfl] at hfuel
      omega
    have hF : fuelNeedF fields ≤ fuel := by omega
    by_cases hg1 : (chain.head?.getD "") ∈ firestoreTypeNames
    · have hre : reachesNestedArray (vObj chain fields) ia = false := by
        rw [reachesNestedArray, if_pos hg1]
      constructor
      · intro h
        rw [hre] at h
        exact Bool.noConfusion h
      · intro _
        refine ⟨vObj chain fields, ?_⟩
        rw [convertValueToFirestore,
          show errorModeOptions.toFirestoreConverters = [] from rfl, applyCustomConverters_nil]
        dsimp only
        rw [if_pos hg1]
    · by_cases hg2 : chain.contains "Date" = true
      · have hre : reachesNestedArray (vObj chain fields) ia = false := by
          rw [reachesNestedArray, if_neg hg1, if_pos hg2]
        constructor
        · intro h
          rw [hre] at h
          exact Bool.noConfusion h
        · intro _
          refine ⟨vObj chain fields, ?_⟩
          rw [convertValueToFirestore,
            show errorModeOptions.toFirestoreConverters = [] from rfl,
            applyCustomConverters_nil]
          dsimp only
          rw [if_neg hg1, if_pos hg2]
      · have hre : reachesNestedArray (vObj chain fields) ia = reachesNestedArrayF fields := by
          rw [reachesNestedArray, if_neg hg1, if_neg hg2]
        by_cases hg3 : chain.head? = some "Object"
        · have hall : ∀ p ∈ fields,
              convertValueToFirestore errorModeOptions fuel p.2 false
                  = .error "Firestore can't handle multi-dimensional arrays" ∨
                ∃ w, convertValueToFirestore errorModeOptions fuel p.2 false = .ok w := by
            intro p hp
            have haux := c8aux_convert fuel p.2 false (wfKeysF_sound hwkd.2 p hp)
              (le_trans (fuelNeedF_le hp) hF)
            cases hr : reachesNestedArray p.2 false with
            | true => exact Or.inl (haux.1 hr)
            | false => exact Or.inr (haux.2 hr)
          constructor
          · intro h
            rw [hre] at h
            obtain ⟨p, hp, hr⟩ := reachesNestedArrayF_iff.mp h
            have herr := convertEntriesLoop_error_first
              (f := fun val => convertValueToFirestore errorModeOptions fuel val false)
              ([] : List (String × JSVal)) hall
              ⟨p, hp, (c8aux_convert fuel p.2 false (wfKeysF_sound hwkd.2 p hp)
                (le_trans (fuelNeedF_le hp) hF)).1 hr⟩
            rw [convertValueToFirestore,
              show errorModeOptions.toFirestoreConverters = [] from rfl,
              applyCustomConverters_nil]
            dsimp only
            rw [if_neg hg1, if_neg hg2, if_pos hg3, herr]
          · intro h
            rw [hre] at h
            have hnone : ∀ p ∈ fields, reachesNestedArray p.2 false = false := by
              intro p hp
              cases hr : reachesNestedArray p.2 false with
              | false => rfl
              | true => rw [reachesNestedArrayF_iff.mpr ⟨p, hp, hr⟩] at h; cases h
            obtain ⟨res, hres⟩ := convertEntriesLoop_ok_of_all
              (f := fun val => convertValueToFirestore errorModeOptions fuel val false)
              ([] : List (String × JSVal))
              (fun p hp => (c8aux_convert fuel p.2 false (wfKeysF_sound hwkd.2 p hp)
                (le_trans (fuelNeedF_le hp) hF)).2 (hnone p hp))
            refine ⟨vObj ["Object"] res, ?_⟩
            rw [convertValueToFirestore,
              show errorModeOptions.toFirestoreConverters = [] from rfl,
              applyCustomConverters_nil]
            dsimp only
            rw [if_neg hg1, if_neg hg2, if_pos hg3, hres]
        · have haux := c8aux_ctpo fuel chain fields hwf hF1
          constructor
          · intro h
            rw [hre] at h
            rw [convertValueToFirestore,
              show errorModeOptions.toFirestoreConverters = [] from rfl,
              applyCustomConverters_nil]
            dsimp only
            rw [if_neg hg1, if_neg hg2, if_neg hg3]
            exact haux.1 h
          · intro h
            rw [hre] at h
            obtain ⟨w, hw⟩ := haux.2 h
            refine ⟨w, ?_⟩
            rw [convertValueToFirestore,
              show errorModeOptions.toFirestoreConverters = [] from rfl,
              applyCustomConverters_nil]
            dsimp only
            rw [if_neg hg1, if_neg hg2, if_neg hg3]
            exact hw

/-- The typed-plain-object encoder inherits the same dichotomy over a class
instance's fields. -/
theorem c8aux_ctpo :
    ∀ (fuel : Nat) (chain : List String) (fields : List (String × JSVal)),
      wfKeys (vObj chain fields) = true → fuelNeedF fields + 1 ≤ fuel →
      (reachesNestedArrayF fields = true →
        convertToTypedPlainObject errorModeOptions fuel (vObj chain fields) true
          = .error "Firestore can't handle multi-dimensional arrays") ∧
      (reachesNestedArrayF fields = false →
        ∃ w, convertToTypedPlainObject errorModeOptions fuel (vObj chain fields) true
          = .ok w)
  | 0, _, _, _, hfuel => absurd hfuel (by omega)
  | fuel + 1, chain, fields, hwf, hfuel => by
    have hwkd : keysDistinct fields = true ∧ wfKeysF fields = true := by
      simpa [wfKeys, Bool.and_eq_true] using hwf
    have hF : fuelNeedF fields ≤ fuel := by omega
    have hkeys : ∀ key ∈ getOwnPropertyNames (vObj chain fields),
        (match convertValueToFirestore errorModeOptions fuel
              (getProp (vObj chain fields) key) false with
          | Except.error e => Except.error e
          | Except.ok w => Except.ok (key, w))
            = Except.error "Firestore can't handle multi-dimensional arrays" ∨
          ∃ y, (match convertValueToFirestore errorModeOptions fuel
              (getProp (vObj chain fields) key) false with
          | Except.error e => Except.error e
          | Except.ok w => Except.ok (key, w)) = Except.ok y := by
      intro key hkey
      obtain ⟨q, hq, hqk, hqv⟩ := getProp_key_mem (c := chain) hkey
      have haux := c8aux_convert fuel q.2 false (wfKeysF_sound hwkd.2 q hq)
        (le_trans (fuelNeedF_le hq) hF)
      cases hr : reachesNestedArray q.2 false with
      | true =>
        refine Or.inl ?_
        rw [hqv, haux.1 hr]
      | false =>
        obtain ⟨w, hw⟩ := haux.2 hr
        refine Or.inr ⟨(key, w), ?_⟩
        rw [hqv, hw]
    constructor
    · intro h
      obtain ⟨p, hp, hr⟩ := reachesNestedArrayF_iff.mp h
      have hperr : convertValueToFirestore errorModeOptions fuel
          (getProp (vObj chain fields) p.1) false
          = .error "Firestore can't handle multi-dimensional arrays" := by
        rw [getProp_self_of_distinct hwkd.1 p hp]
        exact (c8aux_convert fuel p.2 false (wfKeysF_sound hwkd.2 p hp)
          (le_trans (fuelNeedF_le hp) hF)).1 hr
      have herr := mapExcept_error_first
        (f := fun key =>
          match convertValueToFirestore errorModeOptions fuel
              (getProp (vObj chain fields) key) false with
          | Except.error e => Except.error e
          | Except.ok w => Except.ok (key, w))
        (fun key hkey => hkeys key hkey)
        ⟨p.1, List.mem_map_of_mem Prod.fst hp, by simp only [hperr]⟩
      rw [convertToTypedPlainObject_eq, herr]
    · intro h
      have hnone : ∀ p ∈ fields, reachesNestedArray p.2 false = false := by
        intro p hp
        cases hr : reachesNestedArray p.2 false with
        | false => rfl
        | true => rw [reachesNestedArrayF_iff.mpr ⟨p, hp, hr⟩] at h; cases h
      have hok : ∀ key ∈ getOwnPropertyNames (vObj chain fields),
          ∃ y, (match convertValueToFirestore errorModeOptions fuel
              (getProp (vObj chain fields) key) false with
            | Except.error e => Except.error e
            | Except.ok w => Except.ok (key, w)) = Except.ok y := by
        intro key hkey
        obtain ⟨q, hq, hqk, hqv⟩ := getProp_key_mem (c := chain) hkey
        obtain ⟨w, hw⟩ := (c8aux_convert fuel q.2 false (wfKeysF_sound hwkd.2 q hq)
          (le_trans (fuelNeedF_le hq) hF)).2 (hnone q hq)
        refine ⟨(key, w), ?_⟩
        rw [hqv, hw]
      obtain ⟨res, hres⟩ := mapExcept_ok_of_all
        (f := fun key =>
          match convertValueToFirestore errorModeOptions fuel
              (getProp (vObj chain fields) key) false with
          | Except.error e => Except.error e
          | Except.ok w => Except.ok (key, w))
        (fun key hkey => hok key hkey)
      refine ⟨vObj ["Object"] (objInsert (objFromList res) errorModeOptions.constructorKey
        (vStr ((constructorName (vObj chain fields)).getD "undefined"))), ?_⟩
      rw [convertToTypedPlainObject_eq, hres]

end

/-- C8 (counterexample): an object whose constructor is merely *named*
`GeoPoint` contains an array directly inside an array at depth 1, yet with
`multidimensionalArrays = "error"` the conversion succeeds and returns the
value unchanged: the constructor-name switch passes it through without
traversing its fields, so the nested array is never reached. -/
theorem c8_counterexample :
    containsNestedArrayAnywhere
      (vObj ["GeoPoint", "Object"] [("a", vArr [vArr [vNum 1]])]) = true ∧
    convertValueToFirestore errorModeOptions 9
        (vObj ["GeoPoint", "Object"] [("a", vArr [vArr [vNum 1]])]) false
      = .ok (vObj ["GeoPoint", "Object"] [("a", vArr [vArr [vNum 1]])]) := ⟨rfl, rfl⟩

/-- C8 (amended): with `multidimensionalArrays = "error"` and empty
custom-converter tables, outbound conversion of any well-formed value whose
conversion traversal reaches an array directly inside an array (through array
elements, plain-object fields and class-instance properties — not through
values passed through unchanged) throws the nested-array error synchronously;
the whole conversion call fails with that error and no partial result. -/
theorem c8_nested_array_error (v : JSVal) (fuel : Nat)
    (hwf : wfKeys v = true) (hfuel : fuelNeed v ≤ fuel)
    (hr : reachesNestedArray v false = true) :
    convertValueToFirestore errorModeOptions fuel v false
      = .error "Firestore can't handle multi-dimensional arrays" :=
  (c8aux_convert fuel v false hwf hfuel).1 hr

/-- Witness for `c8_nested_array_error` at `[[1,2]]`. -/
theorem c8_nested_array_error_witness :
    convertValueToFirestore errorModeOptions 9 (vArr [vArr [vNum 1, vNum 2]]) false
      = .error "Firestore can't handle multi-dimensional arrays" :=
  c8_nested_array_error (vArr [vArr [vNum 1, vNum 2]]) 9 rfl (by decide) rfl

mutual

/-- Under `multidimensionalArrays = "omit"` (empty tables, other options at
defaults) outbound conversion never throws. -/
theorem c10aux_convert :
    ∀ (fuel : Nat) (v : JSVal) (ia : Bool), fuelNeed v ≤ fuel →
      ∃ w, convertValueToFirestore omitModeOptions fuel v ia = .ok w
  | 0, v, _, hfuel => absurd hfuel (by have := fuelNeed_pos v; omega)
  | fuel + 1, vNull, ia, _ => ⟨vNull, rfl⟩
  | fuel + 1, vUndefined, ia, _ => ⟨vUndefined, rfl⟩
  | fuel + 1, vNum n, ia, _ => ⟨vNum n, rfl⟩
  | fuel + 1, vBool b, ia, _ => ⟨vBool b, rfl⟩
  | fuel + 1, vStr s, ia, _ => ⟨vStr s, rfl⟩
  | fuel + 1, vBigInt n, ia, _ => ⟨vBigInt n, rfl⟩
  | fuel + 1, vSymbol d, ia, _ => ⟨vStr ("Symbol(" ++ d ++ ")"), rfl⟩
  | fuel + 1, vFunc n s, ia, _ => ⟨vUndefined, rfl⟩
  | fuel + 1, vDate t, ia, _ => ⟨vDate t, rfl⟩
  | fuel + 1, vTimestamp t, ia, _ => ⟨vTimestamp t, rfl⟩
  | fuel + 1, vDocRef p, ia, _ => ⟨vDocRef p, rfl⟩
  | fuel + 1, vGeoPoint a b, ia, _ => ⟨vGeoPoint a b, rfl⟩
  | fuel + 1, vFieldValue t, ia, _ => ⟨vFieldValue t, rfl⟩
  | fuel + 1, vArr items, true, _ => ⟨vUndefined, rfl⟩
  | fuel + 1, vArr items, false, hfuel => by
    have hL : fuelNeedL items ≤ fuel := by
      rw [show fuelNeed (vArr items) = 2 + fuelNeedL items from rfl] at hfuel
      omega
    obtain ⟨res, hres⟩ := mapExcept_ok_of_all
      (f := fun item => convertValueToFirestore omitModeOptions fuel item true)
      (fun x hx => c10aux_convert fuel x true (le_trans (fuelNeedL_le hx) hL))
    refine ⟨vArr res, ?_⟩
    rw [convertValueToFirestore,
      show omitModeOptions.toFirestoreConverters = [] from rfl, applyCustomConverters_nil]
    dsimp only
    rw [hres]
    rfl
  | fuel + 1, vObj chain fields, ia, hfuel => by
    have hF1 : fuelNeedF fields + 1 ≤ fuel := by
      rw [show fuelNeed (vObj chain fields) = 2 + fuelNeedF fields from rfl] at hfuel
      omega
    have hF : fuelNeedF fields ≤ fuel := by omega
    by_cases hg1 : (chain.head?.getD "") ∈ firestoreTypeNames
    · refine ⟨vObj chain fields, ?_⟩
      rw [convertValueToFirestore,
        show omitModeOptions.toFirestoreConverters = [] from rfl, applyCustomConverters_nil]
      dsimp only
      rw [if_pos hg1]
    · by_cases hg2 : chain.contains "Date" = true
      · refine ⟨vObj chain fields, ?_⟩
        rw [convertValueToFirestore,
          show omitModeOptions.toFirestoreConverters = [] from rfl, applyCustomConverters_nil]
        dsimp only
        rw [if_neg hg1, if_pos hg2]
      · by_cases hg3 : chain.head? = some "Object"
        · obtain ⟨res, hres⟩ := convertEntriesLoop_ok_of_all
            (f := fun val => convertValueToFirestore omitModeOptions fuel val false)
            ([] : List (String × JSVal))
            (fun p hp => c10aux_convert fuel p.2 false (le_trans (fuelNeedF_le hp) hF))
          refine ⟨vObj ["Object"] res, ?_⟩
          rw [convertValueToFirestore,
            show omitModeOptions.toFirestoreConverters = [] from rfl,
            applyCustomConverters_nil]
          dsimp only
          rw [if_neg hg1, if_neg hg2, if_pos hg3, hres]
        · obtain ⟨w, hw⟩ := c10aux_ctpo fuel chain fields hF1
          refine ⟨w, ?_⟩
          rw [convertValueToFirestore,
            show omitModeOptions.toFirestoreConverters = [] from rfl,
            applyCustomConverters_nil]
          dsimp only
          rw [if_neg hg1, if_neg hg2, if_neg hg3]
          exact hw

/-- The typed-plain-object encoder never throws under the same options. -/
theorem c10aux_ctpo :
    ∀ (fuel : Nat) (chain : List String) (fields : List (String × JSVal)),
      fuelNeedF fields + 1 ≤ fuel →
      ∃ w, convertToTypedPlainObject omitModeOptions fuel (vObj chain fields) true = .ok w
  | 0, _, _, hfuel => absurd hfuel (by omega)
  | fuel + 1, chain, fields, hfuel => by
    have hF : fuelNeedF fields ≤ fuel := by omega
    have hok : ∀ key ∈ getOwnPropertyNames (vObj chain fields),
        ∃ y, (match convertValueToFirestore omitModeOptions fuel
            (getProp (vObj chain fields) key) false with
          | Except.error e => Except.error e
          | Except.ok w => Except.ok (key, w)) = Except.ok y := by
      intro key hkey
      obtain ⟨q, hq, hqk, hqv⟩ := getProp_key_mem (c := chain) hkey
      obtain ⟨w, hw⟩ := c10aux_convert fuel q.2 false (le_trans (fuelNeedF_le hq) hF)
      refine ⟨(key, w), ?_⟩
      rw [hqv, hw]
    obtain ⟨res, hres⟩ := mapExcept_ok_of_all
      (f := fun key =>
        match convertValueToFirestore omitModeOptions fuel
            (getProp (vObj chain fields) key) false with
        | Except.error e => Except.error e
        | Except.ok w => Except.ok (key, w))
      (fun key hkey => hok key hkey)
    refine ⟨vObj ["Object"] (objInsert (objFromList res) omitModeOptions.constructorKey
      (vStr ((constructorName (vObj chain fields)).getD "undefined"))), ?_⟩
    rw [convertToTypedPlainObject_eq, hres]

end

/-- C10: with `multidimensionalArrays = "omit"` and empty custom-converter
tables, outbound conversion of an array whose element at index `i` is an array
returns an array of the same length with `undefined` at index `i`: the outer
array keeps a slot for the omitted inner array rather than being compacted. -/
theorem c10_omitted_nested_array_slot (items inner : List JSVal) (i : Nat) (fuel : Nat)
    (hfuel : fuelNeed (vArr items) ≤ fuel + 1)
    (hi : items.get? i = some (vArr inner)) :
    ∃ res, convertValueToFirestore omitModeOptions (fuel + 1) (vArr items) false
        = .ok (vArr res) ∧
      res.length = items.length ∧ res.get? i = some vUndefined := by
  have hL : fuelNeedL items ≤ fuel := by
    rw [show fuelNeed (vArr items) = 2 + fuelNeedL items from rfl] at hfuel
    omega
  obtain ⟨res, hres, hlen, hpt⟩ := mapExcept_ok_pointwise
    (f := fun item => convertValueToFirestore omitModeOptions fuel item true)
    (fun x hx => c10aux_convert fuel x true (le_trans (fuelNeedL_le hx) hL))
  obtain ⟨y, hy, hre⟩ := hpt i (vArr inner) hi
  have hmem : vArr inner ∈ items := List.get?_mem hi
  have hfinner : 1 ≤ fuelNeedL items :=
    le_trans (fuelNeed_pos (vArr inner)) (fuelNeedL_le hmem)
  cases fuel with
  | zero => omega
  | succ f =>
    have hyu : convertValueToFirestore omitModeOptions (f + 1) (vArr inner) true
        = .ok vUndefined := rfl
    rw [hyu] at hy
    injection hy with hy'
    refine ⟨res, ?_, hlen, ?_⟩
    · rw [convertValueToFirestore,
        show omitModeOptions.toFirestoreConverters = [] from rfl, applyCustomConverters_nil]
      dsimp only
      rw [hres]
      rfl
    · rw [hy']
      exact hre

/-- Witness for `c10_omitted_nested_array_slot` at `[1, [2], 3]`. -/
theorem c10_omitted_nested_array_slot_witness :
    ∃ res, convertValueToFirestore omitModeOptions 9 (vArr [vNum 1, vArr [vNum 2], vNum 3])
        false = .ok (vArr res) ∧
      res.length = [vNum 1, vArr [vNum 2], vNum 3].length ∧
      res.get? 1 = some vUndefined :=
  c10_omitted_nested_array_slot [vNum 1, vArr [vNum 2], vNum 3] [vNum 2] 1 8
    (by decide) rfl
